import Mathlib

/- Verification development for projects_stats.py: a shallow embedding of the
   log-derived read-activity extractor, the report reconciliation, and the CSV
   persistence layer, together with theorems settling the specification claims.
   Python strings are modelled as Lean `String`/`List Char`; Python `datetime`
   values as a record of numeric fields; Python `None`-able values as `Option`.
   Regex character classes are modelled over the ASCII range, which covers the
   access-log alphabet the program processes. -/

set_option maxHeartbeats 1600000

/- Model of `datetime.datetime` values carrying a UTC timezone, as produced by
   `datetime.strptime(...).replace(tzinfo=timezone.utc)`. -/
structure Datetime where
  year : Nat
  month : Nat
  day : Nat
  hour : Nat
  minute : Nat
  second : Nat
  usec : Nat
deriving DecidableEq, Repr

/- Python comparison `a < b` on two UTC-aware datetimes: lexicographic on the
   calendar fields (equivalent to timeline order for constructor-valid fields). -/
def dtLt (a b : Datetime) : Bool :=
  decide (a.year < b.year ∨ (a.year = b.year ∧ (a.month < b.month ∨ (a.month = b.month ∧
    (a.day < b.day ∨ (a.day = b.day ∧ (a.hour < b.hour ∨ (a.hour = b.hour ∧
      (a.minute < b.minute ∨ (a.minute = b.minute ∧ (a.second < b.second ∨
        (a.second = b.second ∧ a.usec < b.usec))))))))))))

/- The fold step used by the scanner: keep the larger timestamp. -/
def maxD (a b : Datetime) : Datetime := if dtLt a b then b else a

/- Folding an optional accumulator (absent map entry) with a new timestamp,
   exactly as `prev is None or ts > prev` updates the dictionary entry. -/
def omaxD : Option Datetime → Datetime → Option Datetime
  | none, t => some t
  | some m, t => some (maxD m t)

/- Character helpers. `Char.isDigit` matches the ASCII digits, modelling the
   digit class as it applies to the program's ASCII access-log lines. -/
def dval (c : Char) : Nat := c.toNat - 48

def val2 (a b : Char) : Nat := 10 * dval a + dval b

def val4 (a b c d : Char) : Nat := 1000 * dval a + 100 * dval b + 10 * dval c + dval d

def digitsVal (l : List Char) : Nat := l.foldl (fun acc c => 10 * acc + dval c) 0

/- Leap-year rule used by `datetime` (proleptic Gregorian calendar). -/
def isLeap (y : Nat) : Bool := y % 4 = 0 && (y % 100 != 0 || y % 400 = 0)

def daysInMonth (y mo : Nat) : Nat :=
  if mo = 2 then (if isLeap y then 29 else 28)
  else if mo = 4 || mo = 6 || mo = 9 || mo = 11 then 30
  else 31

/- The `datetime` constructor: validates every field range (MINYEAR = 1,
   MAXYEAR = 9999, day checked against the month length) or raises. -/
def mkValidDatetime (y mo d h mi s us : Nat) : Option Datetime :=
  if 1 ≤ y ∧ y ≤ 9999 ∧ 1 ≤ mo ∧ mo ≤ 12 ∧ 1 ≤ d ∧ d ≤ daysInMonth y mo ∧
     h ≤ 23 ∧ mi ≤ 59 ∧ s ≤ 59 ∧ us ≤ 999999 then
    some ⟨y, mo, d, h, mi, s, us⟩
  else none

/- The ASCII digit class `\d` as it applies to these log lines. -/
def isDig (c : Char) : Bool := 48 ≤ c.toNat && c.toNat ≤ 57

/- Single-character consumers used to model the regex engine's steps. -/
def expectCh (c : Char) : List Char → Option (List Char)
  | x :: r => if x = c then some r else none
  | [] => none

def expectDig : List Char → Option (Char × List Char)
  | x :: r => if isDig x then some (x, r) else none
  | [] => none

def expect2Digits (l : List Char) : Option (Char × Char × List Char) :=
  match expectDig l with
  | none => none
  | some (a, r) =>
    match expectDig r with
    | none => none
    | some (b, r2) => some (a, b, r2)

/- The fourteen digit characters of a fixed-width timestamp token. -/
structure TsFields where
  y1 : Char
  y2 : Char
  y3 : Char
  y4 : Char
  m1 : Char
  m2 : Char
  d1 : Char
  d2 : Char
  h1 : Char
  h2 : Char
  i1 : Char
  i2 : Char
  s1 : Char
  s2 : Char
deriving DecidableEq, Repr

def stemChars (f : TsFields) : List Char :=
  [f.y1, f.y2, f.y3, f.y4, '-', f.m1, f.m2, '-', f.d1, f.d2, 'T',
   f.h1, f.h2, ':', f.i1, f.i2, ':', f.s1, f.s2]

/- Consuming `\d{4}-\d{2}-\d{2}T\d{2}:\d{2}:\d{2}`, the part of the timestamp
   shape shared by the regex and by the `strptime` format string. -/
def parseStem (l : List Char) : Option (TsFields × List Char) :=
  match expect2Digits l with
  | none => none
  | some (y1, y2, ra) =>
  match expect2Digits ra with
  | none => none
  | some (y3, y4, rb) =>
  match expectCh '-' rb with
  | none => none
  | some rc =>
  match expect2Digits rc with
  | none => none
  | some (m1, m2, rd) =>
  match expectCh '-' rd with
  | none => none
  | some re' =>
  match expect2Digits re' with
  | none => none
  | some (d1, d2, rf) =>
  match expectCh 'T' rf with
  | none => none
  | some rg =>
  match expect2Digits rg with
  | none => none
  | some (h1, h2, rh) =>
  match expectCh ':' rh with
  | none => none
  | some ri =>
  match expect2Digits ri with
  | none => none
  | some (i1, i2, rj) =>
  match expectCh ':' rj with
  | none => none
  | some rk =>
  match expect2Digits rk with
  | none => none
  | some (s1, s2, rl) => some (⟨y1, y2, y3, y4, m1, m2, d1, d2, h1, h2, i1, i2, s1, s2⟩, rl)

/- Matching `_TS_RE` at one start position:
   `\[(\d{4}-\d{2}-\d{2}T\d{2}:\d{2}:\d{2}(?:\.\d+)?Z)\]`.
   The optional fraction needs no backtracking beyond trying the group first,
   because a dot or a digit can never be a `Z`. Returns the captured group
   (the token between the brackets). -/
def matchTsAt (l : List Char) : Option (List Char) :=
  match expectCh '[' l with
  | none => none
  | some r0 =>
    match parseStem r0 with
    | none => none
    | some (f, r19) =>
      match expectCh '.' r19 with
      | some fr =>
        let fd := fr.takeWhile isDig
        if fd = [] then none
        else
          match expectCh 'Z' (fr.dropWhile isDig) with
          | none => none
          | some rz =>
            match expectCh ']' rz with
            | none => none
            | some _ => some (stemChars f ++ '.' :: fd ++ ['Z'])
      | none =>
        match expectCh 'Z' r19 with
        | none => none
        | some rz =>
          match expectCh ']' rz with
          | none => none
          | some _ => some (stemChars f ++ ['Z'])

/- `re.search` with `_TS_RE`: leftmost match wins. -/
def tsSearch : List Char → Option (List Char)
  | [] => none
  | c :: r =>
    match matchTsAt (c :: r) with
    | some t => some t
    | none => tsSearch r

/- `datetime.strptime(s, "%Y-%m-%dT%H:%M:%S.%fZ")` restricted to the strings
   `_TS_RE` can capture (fixed-width fields). `%Y` is exactly four digits,
   `%f` is one to six digits and is zero-padded on the right to microseconds;
   the whole string must be consumed; field values outside the `datetime`
   constructor's ranges raise `ValueError` (modelled as `none`). A captured
   token with no fractional part fails here because the format string demands
   a literal dot followed by `%f`. -/
def pyStrptimeTs (tok : List Char) : Option Datetime :=
  match parseStem tok with
  | none => none
  | some (f, r19) =>
    match expectCh '.' r19 with
    | none => none
    | some r20 =>
      let fd := r20.takeWhile isDig
      if 1 ≤ fd.length ∧ fd.length ≤ 6 then
        match expectCh 'Z' (r20.dropWhile isDig) with
        | some [] =>
          mkValidDatetime (val4 f.y1 f.y2 f.y3 f.y4) (val2 f.m1 f.m2) (val2 f.d1 f.d2)
            (val2 f.h1 f.h2) (val2 f.i1 f.i2) (val2 f.s1 f.s2)
            (digitsVal fd * 10 ^ (6 - fd.length))
        | _ => none
      else none

/- `_extract_ts`: search the line for the timestamp pattern, then convert the
   captured token; a conversion failure is logged and treated as no timestamp. -/
def pyExtractTs (line : String) : Option Datetime :=
  match tsSearch line.data with
  | none => none
  | some tok => pyStrptimeTs tok

/- The double-quote character, written by code point to keep the embedding
   readable. -/
def quoteChar : Char := Char.ofNat 34

/- Python regex `\s` over the ASCII range. -/
def isPySpace (c : Char) : Bool :=
  c = ' ' || c = '\t' || c = '\n' || c.toNat = 13 || c.toNat = 11 || c.toNat = 12

/- Python regex `\w` over the ASCII range, for the `\b` boundary. -/
def isWordC (c : Char) : Bool := c.isAlphanum || c = '_'

def lowEq (a b : Char) : Bool := a.toLower = b.toLower

/- Consume a literal pattern case-insensitively (re.IGNORECASE). -/
def matchCi : List Char → List Char → Option (List Char)
  | [], l => some l
  | _ :: _, [] => none
  | p :: ps, c :: cs => if lowEq c p then matchCi ps cs else none

/- `\b` after a word character: next char absent or not a word char. -/
def wordBoundaryK : List Char → Bool
  | [] => true
  | c :: _ => !isWordC c

/- `_UPLOAD_PACK_RE` suffix after the slash that follows the project name:
   `(?:info/refs\?service=git-upload-pack|(?:git-)?upload-pack)\b`,
   alternatives tried in the regex engine's order. -/
def upAfterSlash (l : List Char) : Bool :=
  (match matchCi "info/refs?service=git-upload-pack".data l with
   | some r => wordBoundaryK r
   | none => false)
  || (match matchCi "git-".data l with
      | some r =>
        match matchCi "upload-pack".data r with
        | some r2 => wordBoundaryK r2
        | none => false
      | none => false)
  || (match matchCi "upload-pack".data l with
      | some r => wordBoundaryK r
      | none => false)

/- `(?:\.git)?/...` after the lazily matched project name: the optional
   `.git` is tried first, then dropped on failure. -/
def upTail (l : List Char) : Bool :=
  (match matchCi ".git".data l with
   | some r =>
     match r with
     | '/' :: r2 => upAfterSlash r2
     | _ => false
   | none => false)
  || (match l with
      | '/' :: r2 => upAfterSlash r2
      | _ => false)

/- The lazy `[^\s]*?` extension of the project capture: try the rest of the
   pattern before consuming each further character. -/
def projExt (acc : List Char) (rem : List Char) : Option (List Char) :=
  if upTail rem then some acc.reverse
  else
    match rem with
    | [] => none
    | c :: r => if isPySpace c then none else projExt (c :: acc) r

/- `[^\s/]` for the first character of the project capture. -/
def projStart : List Char → Option (List Char)
  | [] => none
  | c :: r => if !isPySpace c && c != '/' then projExt [c] r else none

/- `\s+` then `/`, the optional `(?:(?:a|p)/)?` prefix (tried with the group
   first, backtracking to without), then the project capture. -/
def upAfterMethod (r1 : List Char) : Option (List Char) :=
  let sp := r1.takeWhile isPySpace
  let r2 := r1.dropWhile isPySpace
  if sp = [] then none
  else
    match r2 with
    | '/' :: r3 =>
      (match r3 with
       | a :: '/' :: r4 =>
         if lowEq a 'a' || lowEq a 'p' then
           match projStart r4 with
           | some res => some res
           | none => projStart r3
         else projStart r3
       | _ => projStart r3)
    | _ => none

/- `_UPLOAD_PACK_RE` matched at one start position; returns the `proj` group. -/
def upMatchAt (l : List Char) : Option (List Char) :=
  match l with
  | [] => none
  | c0 :: r0 =>
    if c0 = quoteChar then
      match matchCi "GET".data r0 with
      | some r1 => upAfterMethod r1
      | none =>
        match matchCi "POST".data r0 with
        | some r1 => upAfterMethod r1
        | none => none
    else none

/- `re.search` with `_UPLOAD_PACK_RE`: leftmost matching start position. -/
def upSearch : List Char → Option (List Char)
  | [] => none
  | c :: r =>
    match upMatchAt (c :: r) with
    | some t => some t
    | none => upSearch r

/- `_HTTP_URL_RE`: `"(?:GET|HEAD)\s+([^\s\"]+)`; the capture is greedy and
   nothing follows it, so it is the maximal run. -/
def httpAfterMethod (r1 : List Char) : Option (List Char) :=
  let sp := r1.takeWhile isPySpace
  let r2 := r1.dropWhile isPySpace
  if sp = [] then none
  else
    let cap := r2.takeWhile (fun c => !isPySpace c && c != quoteChar)
    if cap = [] then none else some cap

def httpMatchAt (l : List Char) : Option (List Char) :=
  match l with
  | [] => none
  | c0 :: r0 =>
    if c0 = quoteChar then
      match matchCi "GET".data r0 with
      | some r1 => httpAfterMethod r1
      | none =>
        match matchCi "HEAD".data r0 with
        | some r1 => httpAfterMethod r1
        | none => none
    else none

def httpSearch : List Char → Option (List Char)
  | [] => none
  | c :: r =>
    match httpMatchAt (c :: r) with
    | some t => some t
    | none => httpSearch r

/- `urllib.parse.unquote(s)` with utf-8 decoding and `errors="replace"`. -/
def hexVal (c : Char) : Option Nat :=
  if '0' ≤ c ∧ c ≤ '9' then some (c.toNat - 48)
  else if 'a' ≤ c ∧ c ≤ 'f' then some (c.toNat - 87)
  else if 'A' ≤ c ∧ c ≤ 'F' then some (c.toNat - 55)
  else none

def replChar : Char := Char.ofNat 0xFFFD

def contOk (b : Nat) : Bool := 0x80 ≤ b && b ≤ 0xBF

/- Incremental UTF-8 decoding with replacement of maximal invalid subparts,
   as CPython's utf-8 codec does under `errors="replace"`. Every step consumes
   at least one byte, so a fuel equal to the input length never runs out. -/
def utf8DecodeReplaceF : Nat → List Nat → List Char
  | 0, _ => []
  | _, [] => []
  | fuel + 1, b :: rest =>
    if b ≤ 0x7F then Char.ofNat b :: utf8DecodeReplaceF fuel rest
    else if b < 0xC2 then replChar :: utf8DecodeReplaceF fuel rest
    else if b ≤ 0xDF then
      match rest with
      | [] => [replChar]
      | c1 :: r1 =>
        if contOk c1 then
          Char.ofNat ((b - 0xC0) * 0x40 + (c1 - 0x80)) :: utf8DecodeReplaceF fuel r1
        else replChar :: utf8DecodeReplaceF fuel rest
    else if b ≤ 0xEF then
      match rest with
      | [] => [replChar]
      | c1 :: r1 =>
        if (if b = 0xE0 then decide (0xA0 ≤ c1 ∧ c1 ≤ 0xBF)
            else if b = 0xED then decide (0x80 ≤ c1 ∧ c1 ≤ 0x9F)
            else contOk c1) then
          match r1 with
          | [] => [replChar]
          | c2 :: r2 =>
            if contOk c2 then
              Char.ofNat ((b - 0xE0) * 0x1000 + (c1 - 0x80) * 0x40 + (c2 - 0x80)) ::
                utf8DecodeReplaceF fuel r2
            else replChar :: utf8DecodeReplaceF fuel r1
        else replChar :: utf8DecodeReplaceF fuel rest
    else if b ≤ 0xF4 then
      match rest with
      | [] => [replChar]
      | c1 :: r1 =>
        if (if b = 0xF0 then decide (0x90 ≤ c1 ∧ c1 ≤ 0xBF)
            else if b = 0xF4 then decide (0x80 ≤ c1 ∧ c1 ≤ 0x8F)
            else contOk c1) then
          match r1 with
          | [] => [replChar]
          | c2 :: r2 =>
            if contOk c2 then
              match r2 with
              | [] => [replChar]
              | c3 :: r3 =>
                if contOk c3 then
                  Char.ofNat ((b - 0xF0) * 0x40000 + (c1 - 0x80) * 0x1000 +
                    (c2 - 0x80) * 0x40 + (c3 - 0x80)) :: utf8DecodeReplaceF fuel r3
                else replChar :: utf8DecodeReplaceF fuel r2
            else replChar :: utf8DecodeReplaceF fuel r1
        else replChar :: utf8DecodeReplaceF fuel rest
    else replChar :: utf8DecodeReplaceF fuel rest

def utf8DecodeReplace (l : List Nat) : List Char := utf8DecodeReplaceF l.length l

/- Percent-decoding pass: `%XX` hex pairs become bytes, other ASCII characters
   contribute their own byte, and each maximal ASCII run is utf-8-decoded with
   replacement; non-ASCII characters pass through unchanged (CPython splits
   the string on ASCII runs before decoding). The accumulator holds the
   current run's bytes in reverse; every step consumes at least one character,
   so a fuel equal to the input length never runs out. -/
def pyUnquoteGoF : Nat → List Nat → List Char → List Char
  | 0, acc, _ => utf8DecodeReplace acc.reverse
  | _, acc, [] => utf8DecodeReplace acc.reverse
  | fuel + 1, acc, c :: r =>
    if c.toNat ≥ 128 then utf8DecodeReplace acc.reverse ++ c :: pyUnquoteGoF fuel [] r
    else if c = '%' then
      match r with
      | h1 :: h2 :: r2 =>
        (match hexVal h1, hexVal h2 with
         | some a, some b => pyUnquoteGoF fuel ((a * 16 + b) :: acc) r2
         | _, _ => pyUnquoteGoF fuel (37 :: acc) r)
      | _ => pyUnquoteGoF fuel (37 :: acc) r
    else pyUnquoteGoF fuel (c.toNat :: acc) r

def pyUnquote (s : String) : String := String.mk (pyUnquoteGoF s.data.length [] s.data)

/- `str.startswith` on character lists (pattern first). -/
def startsWithChars : List Char → List Char → Bool
  | [], _ => true
  | _ :: _, [] => false
  | p :: ps, c :: cs => p = c && startsWithChars ps cs

/- `str.split(sep)` keeping empty fields, as Python does. -/
def pySplitChar : List Char → Char → List (List Char)
  | [], _ => [[]]
  | c :: r, sep =>
    if c = sep then [] :: pySplitChar r sep
    else
      match pySplitChar r sep with
      | [] => [[c]]
      | s :: rest => (c :: s) :: rest

/- Characters allowed in a URL scheme by `urllib.parse`. -/
def schemeChar (c : Char) : Bool := c.isAlpha || c.isDigit || c = '+' || c = '-' || c = '.'

/- `urlsplit(url).path`: strip a valid `scheme:` prefix, then a `//netloc`
   (raising ValueError, modelled as `none`, on unbalanced brackets in the
   netloc), then drop the `#fragment` and finally the `?query`. The input
   never contains tab/newline characters here (the capture regex excludes
   whitespace), so the unsafe-byte removal pass is a no-op. -/
def pyUrlsplitPath (url : List Char) : Option (List Char) :=
  let pre := url.takeWhile (fun c => c != ':')
  let url1 :=
    if pre.length < url.length && !pre.isEmpty && (pre.headD ' ').isAlpha &&
       decide ((pre.headD ' ').toNat < 128) && pre.all schemeChar then
      url.drop (pre.length + 1)
    else url
  if startsWithChars "//".data url1 then
    let after := url1.drop 2
    let netloc := after.takeWhile (fun c => c != '/' && c != '?' && c != '#')
    let rest := after.dropWhile (fun c => c != '/' && c != '?' && c != '#')
    if ('[' ∈ netloc ∧ ']' ∉ netloc) ∨ (']' ∈ netloc ∧ '[' ∉ netloc) then none
    else some ((rest.takeWhile (fun c => c != '#')).takeWhile (fun c => c != '?'))
  else some ((url1.takeWhile (fun c => c != '#')).takeWhile (fun c => c != '?'))

/- The `except` fallback in `_extract_proj`: naive `raw_url.split('?', 1)[0]`. -/
def fallbackPath (rawUrl : List Char) : List Char :=
  match pyUrlsplitPath rawUrl with
  | some p => p
  | none => rawUrl.takeWhile (fun c => c != '?')

/- `path[2:] if path.startswith('/a/') else path`. -/
def stripAslash (path : List Char) : List Char :=
  if startsWithChars "/a/".data path then path.drop 2 else path

/- The generic GET/HEAD fallback classification of `_extract_proj` (only
   reached when the pack-transfer pattern did not match). -/
def genericFallback (line : List Char) : Option String × Option String :=
  match httpSearch line with
  | none => (none, none)
  | some rawUrl =>
    let path1 := stripAslash (fallbackPath rawUrl)
    if startsWithChars "/projects/".data path1 then
      (some (pyUnquote (String.mk ((pySplitChar path1 '/').getD 2 []))), none)
    else if startsWithChars "/changes/".data path1 then
      (some (pyUnquote (String.mk ((path1.drop 9).takeWhile (fun c => c != '~')))), none)
    else (none, some (String.mk path1))

/- `_extract_proj`: the pack-transfer pattern first; the generic fallback only
   when it did not match. Returns `(project, discarded_path)` as the code's
   nullable pair. -/
def extract_proj (line : String) : Option String × Option String :=
  match upSearch line.data with
  | some proj => (some (pyUnquote (String.mk proj)), none)
  | none => genericFallback line.data

/- Python `dict` get and set on a unique-key association list: lookup finds
   the entry, assignment replaces it in place or appends a new one. -/
def dictGet {α : Type} (l : List (String × α)) (k : String) : Option α :=
  (l.find? (fun e => e.1 == k)).map (fun e => e.2)

def dictSet {α : Type} (l : List (String × α)) (k : String) (v : α) : List (String × α) :=
  match l with
  | [] => [(k, v)]
  | e :: t => if e.1 == k then (k, v) :: t else e :: dictSet t k v

/- Python `set.add`: membership-based, no duplicates. -/
def setAdd (l : List String) (u : String) : List String :=
  if u ∈ l then l else l ++ [u]

/- Python truthiness of an optional string: `None` and `""` are falsy. -/
def pyTruthyS : Option String → Bool
  | none => false
  | some s => s != ""

/- The scanner's mutable state: the `last_reads` dict and `discarded_urls` set. -/
structure ScanState where
  lastReads : List (String × Datetime)
  discarded : List String
deriving DecidableEq, Repr

/- One iteration of the inner loop of `get_last_reads_from_logs`. -/
def scanLine (st : ScanState) (line : String) : ScanState :=
  match pyExtractTs line with
  | none => st
  | some ts =>
    let pd := extract_proj line
    if pyTruthyS pd.1 then
      let p := pd.1.getD ""
      match dictGet st.lastReads p with
      | none => { st with lastReads := dictSet st.lastReads p ts }
      | some prev =>
        if dtLt prev ts then { st with lastReads := dictSet st.lastReads p ts } else st
    else if pyTruthyS pd.2 then { st with discarded := setAdd st.discarded (pd.2.getD "") }
    else st

def scanLines (st : ScanState) (lines : List String) : ScanState :=
  lines.foldl scanLine st

/- `get_last_reads_from_logs`, over the decoded lines of the enumerated files. -/
def get_last_reads_from_logs (files : List (List String)) : ScanState :=
  files.foldl scanLines ⟨[], []⟩

/- The observation a line contributes to the last-read fold, if any: a
   timestamp together with a truthy project name. -/
def lineObs (line : String) : Option (String × Datetime) :=
  match pyExtractTs line with
  | none => none
  | some ts =>
    match (extract_proj line).1 with
    | none => none
    | some p => if p = "" then none else some (p, ts)

/- The discarded path a line contributes, if any. -/
def lineDisc (line : String) : Option String :=
  match pyExtractTs line with
  | none => none
  | some _ =>
    if pyTruthyS (extract_proj line).1 then none
    else if pyTruthyS (extract_proj line).2 then some ((extract_proj line).2.getD "")
    else none

/- The timestamps of the observations a list of lines attributes to one
   repository, in stream order. -/
def obsFor (p : String) (lines : List String) : List Datetime :=
  lines.filterMap (fun l =>
    match lineObs l with
    | some (q, t) => if q = p then some t else none
    | none => none)

/- CSV header constants of the source. -/
def CSV_HEADER_REPOSITORY : String := "Repository"

def CSV_HEADER_CREATION_DATE : String := "Creation Date"

def CSV_HEADER_LAST_READ : String := "Last Read Date"

def csvHeaderRow : List String := [CSV_HEADER_REPOSITORY, CSV_HEADER_CREATION_DATE, CSV_HEADER_LAST_READ]

/- `x or "N/A"` on an optional string cell value. -/
def pyOrNA : Option String → String
  | none => "N/A"
  | some s => if s = "" then "N/A" else s

/- Zero-padded decimal rendering, for `str(datetime)`. -/
def padNum (n width : Nat) : List Char :=
  let ds := Nat.toDigits 10 n
  List.replicate (width - ds.length) '0' ++ ds

/- `str(...)` of a UTC-aware datetime as the csv writer stringifies it:
   `YYYY-MM-DD HH:MM:SS[.ffffff]+00:00`. -/
def pyDtStr (d : Datetime) : String :=
  String.mk (padNum d.year 4 ++ '-' :: padNum d.month 2 ++ '-' :: padNum d.day 2 ++
    ' ' :: padNum d.hour 2 ++ ':' :: padNum d.minute 2 ++ ':' :: padNum d.second 2 ++
    (if d.usec = 0 then [] else '.' :: padNum d.usec 6) ++ "+00:00".data)

/- `last_update_ts or "N/A"` where the value is actually the per-repo
   last-read datetime (or None) that `main` put in the third tuple slot. -/
def lastReadCell : Option Datetime → String
  | none => "N/A"
  | some dt => pyDtStr dt

/- One data row written by `write_to_csv`. -/
def writeCsvRow : String × Option String × Option Datetime → List String
  | (repo, c, lr) => [repo, pyOrNA c, lastReadCell lr]

/- `write_to_csv`: header row then one row per tuple. -/
def write_to_csv (rows : List (String × Option String × Option Datetime)) : List (List String) :=
  csvHeaderRow :: rows.map writeCsvRow

/- One loaded record of the previous report. -/
structure ExistingRec where
  creation : Option String
  lastRead : Option String
deriving DecidableEq, Repr

/- `csv.DictReader` row access: `dict(zip(header, row)).get(col)`; a later
   duplicate header would win, and a short row leaves missing columns `None`. -/
def dictGetRow (header row : List String) (col : String) : Option String :=
  ((header.zip row).reverse.find? (fun p => p.1 == col)).map (fun p => p.2)

/- `row.get(...) or None`: empty cells load as missing. -/
def pyOrNone : Option String → Option String
  | none => none
  | some s => if s = "" then none else some s

/- `load_existing_csv` over the parsed rows of the persisted report: skip rows
   with a falsy repository cell, later rows overwrite earlier ones. -/
def loadRowStep (header : List String) (acc : List (String × ExistingRec))
    (row : List String) : List (String × ExistingRec) :=
  match dictGetRow header row CSV_HEADER_REPOSITORY with
  | none => acc
  | some repo =>
    if repo = "" then acc
    else dictSet acc repo
      ⟨pyOrNone (dictGetRow header row CSV_HEADER_CREATION_DATE),
       pyOrNone (dictGetRow header row CSV_HEADER_LAST_READ)⟩

def load_existing_csv (rows : List (List String)) : List (String × ExistingRec) :=
  match rows with
  | [] => []
  | header :: data => data.foldl (loadRowStep header) []

/- The per-repository creation-date decision of `main`: reuse a truthy stored
   value, otherwise call `get_first_commit_date` (the history source `hist`).
   The boolean records whether the history source was invoked. -/
def mainCreationFor (existing : List (String × ExistingRec)) (hist : String → Option String)
    (repo : String) : Option String × Bool :=
  let exC := match dictGet existing repo with
    | none => none
    | some r => r.creation
  if pyTruthyS exC then (exC, false) else (hist repo, true)

/- The row list `main` builds: creation via the decision above, last_read taken
   directly from this run's freshly computed mapping. -/
def mainRows (repos : List String) (existing : List (String × ExistingRec))
    (hist : String → Option String) (lastReads : List (String × Datetime)) :
    List (String × Option String × Option Datetime) :=
  repos.map (fun repo => (repo, (mainCreationFor existing hist repo).1, dictGet lastReads repo))

/- A directory entry as `_iter_log_files` observes it. -/
structure DirEntry where
  name : String
  isFile : Bool
  mtime : Nat
deriving DecidableEq, Repr

def endsWithChars (l suf : List Char) : Bool := startsWithChars suf.reverse l.reverse

/- Python `sub in s` substring test. -/
def containsSub (sub : List Char) : List Char → Bool
  | [] => startsWithChars sub []
  | c :: r => startsWithChars sub (c :: r) || containsSub sub r

/- The name filter of `_iter_log_files`:
   `f.endswith(".log") or f.endswith(".gz") or ".log" in f`. -/
def logNamePred (f : String) : Bool :=
  endsWithChars f.data ".log".data || endsWithChars f.data ".gz".data ||
    containsSub ".log".data f.data

/- Stable insertion into a list kept in descending modification-time order;
   ties keep the earlier-inserted entry first, matching a stable sort with
   `reverse=True`. -/
def insertDesc (e : DirEntry) : List DirEntry → List DirEntry
  | [] => [e]
  | x :: xs => if x.mtime < e.mtime then e :: x :: xs else x :: insertDesc e xs

def sortByMtimeDesc (l : List DirEntry) : List DirEntry :=
  l.foldl (fun acc e => insertDesc e acc) []

/- `_iter_log_files`: regular files passing the name filter, sorted by
   modification time descending (newest first). -/
def iter_log_files (dir : List DirEntry) : List DirEntry :=
  sortByMtimeDesc (dir.filter (fun e => e.isFile && logNamePred e.name))

/- `list.remove(x)`: drop the first occurrence or raise ValueError. -/
def removeFirst (x : String) : List String → List String
  | [] => []
  | y :: r => if y = x then r else y :: removeFirst x r

def pyListRemove (l : List String) (x : String) : Except Unit (List String) :=
  if x ∈ l then Except.ok (removeFirst x l) else Except.error ()

/- `main`'s unconditional `repos.remove("All-Projects"); repos.remove("All-Users")`:
   a missing name raises and aborts the run. -/
def mainCatalogPrep (repos : List String) : Except Unit (List String) :=
  match pyListRemove repos "All-Projects" with
  | Except.error e => Except.error e
  | Except.ok r1 => pyListRemove r1 "All-Users"

/- The creation field the reconciler reads from the loaded report. -/
def creationOf (existing : List (String × ExistingRec)) (r : String) : Option String :=
  match dictGet existing r with
  | none => none
  | some e => e.creation

/- Order and fold lemmas about the datetime comparison and the maximum fold. -/

theorem dtLt_irrefl (a : Datetime) : dtLt a a = false := by
  simp [dtLt]

/- Arithmetic characterization of the lexicographic comparison. -/
theorem dtLt_mk_iff (ay amo ad ah ami as2 au bY bmo bd bh bmi bs2 bu : Nat) :
    dtLt ⟨ay, amo, ad, ah, ami, as2, au⟩ ⟨bY, bmo, bd, bh, bmi, bs2, bu⟩ = true ↔
      (ay < bY ∨ (ay = bY ∧ (amo < bmo ∨ (amo = bmo ∧
        (ad < bd ∨ (ad = bd ∧ (ah < bh ∨ (ah = bh ∧
          (ami < bmi ∨ (ami = bmi ∧ (as2 < bs2 ∨ (as2 = bs2 ∧ au < bu)))))))))))) := by
  simp [dtLt]

theorem dtLt_asymm {a b : Datetime} (h : dtLt a b = true) : dtLt b a = false := by
  cases a with
  | mk ay amo ad ah ami as2 au =>
    cases b with
    | mk bY bmo bd bh bmi bs2 bu =>
      rw [dtLt_mk_iff] at h
      rw [Bool.eq_false_iff, ne_eq, dtLt_mk_iff]
      omega

theorem dtLt_conn {a b : Datetime} (h1 : dtLt a b = false) (h2 : dtLt b a = false) :
    a = b := by
  cases a with
  | mk ay amo ad ah ami as2 au =>
    cases b with
    | mk bY bmo bd bh bmi bs2 bu =>
      rw [Bool.eq_false_iff, ne_eq, dtLt_mk_iff] at h1 h2
      simp only [Datetime.mk.injEq]
      omega

theorem dtLt_trans {a b c : Datetime} (h1 : dtLt a b = true) (h2 : dtLt b c = true) :
    dtLt a c = true := by
  cases a with
  | mk ay amo ad ah ami as2 au =>
    cases b with
    | mk bY bmo bd bh bmi bs2 bu =>
      cases c with
      | mk cy cmo cd ch cmi cs2 cu =>
        rw [dtLt_mk_iff] at h1 h2 ⊢
        omega

theorem dtLt_false_trans {a b c : Datetime} (h1 : dtLt a b = false)
    (h2 : dtLt b c = false) : dtLt a c = false := by
  cases a with
  | mk ay amo ad ah ami as2 au =>
    cases b with
    | mk bY bmo bd bh bmi bs2 bu =>
      cases c with
      | mk cy cmo cd ch cmi cs2 cu =>
        rw [Bool.eq_false_iff, ne_eq, dtLt_mk_iff] at h1 h2 ⊢
        omega

theorem maxD_comm (a b : Datetime) : maxD a b = maxD b a := by
  cases hab : dtLt a b <;> cases hba : dtLt b a <;> simp [maxD, hab, hba]
  · exact dtLt_conn hab hba
  · have h := dtLt_asymm hab
    rw [hba] at h
    cases h

theorem maxD_assoc (a b c : Datetime) : maxD (maxD a b) c = maxD a (maxD b c) := by
  cases hab : dtLt a b <;> cases hbc : dtLt b c
  · have hac := dtLt_false_trans hab hbc
    simp [maxD, hab, hbc, hac]
  · simp [maxD, hab, hbc]
  · simp [maxD, hab, hbc]
  · have hac := dtLt_trans hab hbc
    simp [maxD, hab, hbc, hac]

theorem maxD_left_comm (a b c : Datetime) :
    maxD (maxD a b) c = maxD (maxD a c) b := by
  rw [maxD_assoc, maxD_assoc, maxD_comm b c]

theorem omaxD_left_comm (o : Option Datetime) (t1 t2 : Datetime) :
    omaxD (omaxD o t1) t2 = omaxD (omaxD o t2) t1 := by
  cases o with
  | none => simp [omaxD, maxD_comm]
  | some m => simp [omaxD, maxD_left_comm]

theorem foldl_omaxD_perm {l1 l2 : List Datetime} (h : l1.Perm l2) :
    ∀ o : Option Datetime, l1.foldl omaxD o = l2.foldl omaxD o := by
  induction h with
  | nil => intro o; rfl
  | cons x _ ih => intro o; simp only [List.foldl_cons]; exact ih _
  | swap x y l => intro o; simp only [List.foldl_cons]; rw [omaxD_left_comm]
  | trans _ _ ih1 ih2 => intro o; rw [ih1, ih2]

/- Association-list dictionary lemmas. -/

theorem dictGet_set_self {α : Type} (l : List (String × α)) (k : String) (v : α) :
    dictGet (dictSet l k v) k = some v := by
  induction l with
  | nil =>
    show dictGet [(k, v)] k = some v
    unfold dictGet
    rw [List.find?_cons_of_pos _ (by simp)]
    rfl
  | cons e t ih =>
    by_cases h : e.1 = k
    · have hst : dictSet (e :: t) k v = (k, v) :: t := by simp [dictSet, h]
      rw [hst]
      unfold dictGet
      rw [List.find?_cons_of_pos _ (by simp)]
      rfl
    · have hst : dictSet (e :: t) k v = e :: dictSet t k v := by simp [dictSet, h]
      rw [hst]
      unfold dictGet at ih ⊢
      rw [List.find?_cons_of_neg _ (by simp [h])]
      exact ih

theorem dictGet_set_ne {α : Type} (l : List (String × α)) (k k' : String) (v : α)
    (h : k' ≠ k) : dictGet (dictSet l k v) k' = dictGet l k' := by
  induction l with
  | nil =>
    show dictGet [(k, v)] k' = dictGet [] k'
    unfold dictGet
    rw [List.find?_cons_of_neg _ (by simp [Ne.symm h])]
  | cons e t ih =>
    by_cases he : e.1 = k
    · have hst : dictSet (e :: t) k v = (k, v) :: t := by simp [dictSet, he]
      rw [hst]
      unfold dictGet
      rw [List.find?_cons_of_neg _ (by simp [Ne.symm h]),
          List.find?_cons_of_neg _ (by simp [he, Ne.symm h])]
    · have hst : dictSet (e :: t) k v = e :: dictSet t k v := by simp [dictSet, he]
      rw [hst]
      by_cases he' : e.1 = k'
      · unfold dictGet
        rw [List.find?_cons_of_pos _ (by simp [he']), List.find?_cons_of_pos _ (by simp [he'])]
      · unfold dictGet at ih ⊢
        rw [List.find?_cons_of_neg _ (by simp [he']), List.find?_cons_of_neg _ (by simp [he'])]
        exact ih

/-- C1: the persisted report's mandatory header has the four columns
Repository, Creation Date, Last Update Date, Last Read Date, and every data
row carries a value or the N/A sentinel in each of them. The code instead
writes a three-column header without a Last Update Date column (contradicting
the docstring of `write_to_csv`, which promises four fields), and every data
row likewise has exactly three cells, each filled with a value or "N/A". -/
theorem c1_report_has_three_columns :
    ∀ rows : List (String × Option String × Option Datetime),
      (write_to_csv rows).head? = some csvHeaderRow ∧
      csvHeaderRow = ["Repository", "Creation Date", "Last Read Date"] ∧
      csvHeaderRow.length = 3 ∧
      ("Last Update Date" ∈ csvHeaderRow ↔ False) ∧
      ((write_to_csv rows).all fun r => r.length == 3) = true := by
  intro rows
  refine ⟨rfl, rfl, rfl, by simp [csvHeaderRow, CSV_HEADER_REPOSITORY,
    CSV_HEADER_CREATION_DATE, CSV_HEADER_LAST_READ], ?_⟩
  rw [List.all_eq_true]
  intro r hr
  rw [write_to_csv, List.mem_cons] at hr
  rcases hr with h | h
  · subst h; rfl
  · obtain ⟨⟨repo, c, lr⟩, _, rfl⟩ := List.mem_map.mp h
    rfl

/-- C2 counterexample: a creation date serialized as "N/A" is read back as the
literal truthy string "N/A", so the reconciler reuses it and does not invoke
the history source again (the boolean records whether it was invoked). -/
theorem c2_counterexample_na_is_reused :
    mainCreationFor (load_existing_csv (write_to_csv [("r", none, none)]))
      (fun _ => some "2020-06-01") "r" = (some "N/A", false) := by
  rfl

/- Reading the fixed three-column header rows back through `DictReader`. -/

theorem dictGetRow_header3 (a b c : String) :
    dictGetRow csvHeaderRow [a, b, c] CSV_HEADER_REPOSITORY = some a ∧
    dictGetRow csvHeaderRow [a, b, c] CSV_HEADER_CREATION_DATE = some b ∧
    dictGetRow csvHeaderRow [a, b, c] CSV_HEADER_LAST_READ = some c := by
  exact ⟨rfl, rfl, rfl⟩

theorem loadRowStep_writeRow_ne (acc : List (String × ExistingRec)) (q : String)
    (cd : Option String) (lr : Option Datetime) (repo : String) (hne : q ≠ repo) :
    dictGet (loadRowStep csvHeaderRow acc (writeCsvRow (q, cd, lr))) repo = dictGet acc repo := by
  show dictGet (loadRowStep csvHeaderRow acc [q, pyOrNA cd, lastReadCell lr]) repo = dictGet acc repo
  unfold loadRowStep
  rw [(dictGetRow_header3 q (pyOrNA cd) (lastReadCell lr)).1]
  by_cases hq : q = ""
  · simp [hq]
  · simp only [hq, if_false]
    exact dictGet_set_ne _ _ _ _ (fun hh => hne hh.symm)

theorem load_foldl_writeRows_ne (post : List (String × Option String × Option Datetime)) :
    ∀ (acc : List (String × ExistingRec)) (repo : String),
      (∀ t ∈ post, t.1 ≠ repo) →
      dictGet ((post.map writeCsvRow).foldl (loadRowStep csvHeaderRow) acc) repo =
        dictGet acc repo := by
  induction post with
  | nil => intro acc repo _; rfl
  | cons t rest ih =>
    intro acc repo hall
    obtain ⟨q, cd, lr⟩ := t
    rw [List.map_cons, List.foldl_cons]
    rw [ih _ repo (fun t' ht' => hall t' (List.mem_cons_of_mem _ ht'))]
    exact loadRowStep_writeRow_ne acc q cd lr repo (hall _ (List.mem_cons_self _ _))

theorem loadRowStep_writeRow_self (acc : List (String × ExistingRec)) (q : String)
    (cd : Option String) (lr : Option Datetime) (hq : q ≠ "") :
    dictGet (loadRowStep csvHeaderRow acc (writeCsvRow (q, cd, lr))) q =
      some ⟨pyOrNone (some (pyOrNA cd)), pyOrNone (some (lastReadCell lr))⟩ := by
  show dictGet (loadRowStep csvHeaderRow acc [q, pyOrNA cd, lastReadCell lr]) q = _
  unfold loadRowStep
  rw [(dictGetRow_header3 q (pyOrNA cd) (lastReadCell lr)).1]
  simp only [hq, if_false]
  rw [(dictGetRow_header3 q (pyOrNA cd) (lastReadCell lr)).2.1,
      (dictGetRow_header3 q (pyOrNA cd) (lastReadCell lr)).2.2]
  exact dictGet_set_self _ _ _

/-- C2 amended: a field serialized as the "N/A" sentinel is read back by
`load_existing_csv` as the literal non-empty string "N/A" (only missing or
empty cells load as unknown), so a creation_date stored as "N/A" counts as
present and non-empty on the next run and the history source is not invoked
again for that repository: for any report written by `write_to_csv` whose last
row for a repository has no creation date, the next run's creation decision
returns the sentinel itself with the history source left uncalled. -/
theorem c2_na_roundtrip_reuses_sentinel
    (pre post : List (String × Option String × Option Datetime)) (repo : String)
    (lr : Option Datetime) (hist : String → Option String)
    (hrepo : repo ≠ "") (hpost : ∀ t ∈ post, t.1 ≠ repo) :
    mainCreationFor (load_existing_csv (write_to_csv (pre ++ (repo, none, lr) :: post)))
      hist repo = (some "N/A", false) := by
  have hload : dictGet (load_existing_csv (write_to_csv (pre ++ (repo, none, lr) :: post))) repo
      = some ⟨some "N/A", pyOrNone (some (lastReadCell lr))⟩ := by
    unfold write_to_csv load_existing_csv
    dsimp only
    rw [List.map_append, List.foldl_append, List.map_cons, List.foldl_cons]
    rw [load_foldl_writeRows_ne post _ repo hpost]
    exact loadRowStep_writeRow_self _ repo none lr hrepo
  unfold mainCreationFor
  rw [hload]
  rfl

/-- C2 witness: the amended theorem applied to a concrete prior report holding
rows for other repositories around the "N/A" row. -/
theorem c2_na_roundtrip_witness :
    mainCreationFor
      (load_existing_csv (write_to_csv
        [("other", some "2019-01-01", none), ("r", none, none), ("z", none, none)]))
      (fun _ => some "2020-06-01") "r" = (some "N/A", false) := by
  have h := c2_na_roundtrip_reuses_sentinel [("other", some "2019-01-01", none)]
    [("z", none, none)] "r" none (fun _ => some "2020-06-01")
    (by decide) (by intro t ht; simp at ht; subst ht; decide)
  simpa using h

/- `removeFirst` lemmas. -/

theorem removeFirst_sublist (x : String) (l : List String) :
    (removeFirst x l).Sublist l := by
  induction l with
  | nil => simp [removeFirst]
  | cons y r ih =>
    by_cases h : y = x
    · simp [removeFirst, h]
    · simpa [removeFirst, h] using ih.cons₂ y

theorem mem_removeFirst_of_ne {r x : String} (l : List String) (h : r ≠ x) :
    r ∈ removeFirst x l ↔ r ∈ l := by
  induction l with
  | nil => simp [removeFirst]
  | cons y t ih =>
    by_cases hy : y = x
    · subst hy
      simp only [removeFirst, if_pos rfl]
      constructor
      · exact fun hm => List.mem_cons_of_mem _ hm
      · intro hm
        rcases List.mem_cons.mp hm with rfl | hm2
        · exact absurd rfl h
        · exact hm2
    · simp [removeFirst, hy, List.mem_cons, ih]

theorem not_mem_removeFirst {x : String} (l : List String) (hnd : l.Nodup) :
    x ∉ removeFirst x l := by
  induction l with
  | nil => simp [removeFirst]
  | cons y t ih =>
    rw [List.nodup_cons] at hnd
    by_cases hy : y = x
    · subst hy
      simpa [removeFirst] using hnd.1
    · simp [removeFirst, hy, List.mem_cons]
      exact ⟨fun heq => hy heq.symm, ih hnd.2⟩

theorem mem_removeFirst_iff {x r : String} (l : List String) (hnd : l.Nodup) :
    r ∈ removeFirst x l ↔ r ∈ l ∧ r ≠ x := by
  by_cases hr : r = x
  · subst hr
    simp [not_mem_removeFirst l hnd]
  · simp [mem_removeFirst_of_ne l hr, hr]

/-- C9 counterexample: `main` calls `repos.remove("All-Projects")` and
`repos.remove("All-Users")` unconditionally, and `list.remove` raises
ValueError when the element is absent — a catalog lacking the administrative
names aborts instead of proceeding. -/
theorem c9_counterexample_missing_admin_raises :
    mainCatalogPrep ["foo"] = Except.error () ∧
    mainCatalogPrep ["All-Projects", "foo"] = Except.error () := by
  exact ⟨rfl, rfl⟩

/-- C9 amended: when both administrative names are present in the (duplicate-free)
catalog, the preparation removes exactly those two names and proceeds, the
surviving names being precisely the other catalog entries; when either name is
absent, `list.remove` raises ValueError and the run aborts. -/
theorem c9_admin_names_removed_or_error :
    (∀ repos : List String, repos.Nodup → "All-Projects" ∈ repos → "All-Users" ∈ repos →
      mainCatalogPrep repos =
        Except.ok (removeFirst "All-Users" (removeFirst "All-Projects" repos)) ∧
      ∀ r, r ∈ removeFirst "All-Users" (removeFirst "All-Projects" repos) ↔
        (r ∈ repos ∧ r ≠ "All-Projects" ∧ r ≠ "All-Users")) ∧
    (∀ repos : List String,
      ("All-Projects" ∉ repos ∨ "All-Users" ∉ removeFirst "All-Projects" repos) →
      mainCatalogPrep repos = Except.error ()) := by
  constructor
  · intro repos hnd hap hau
    have hnd1 : (removeFirst "All-Projects" repos).Nodup :=
      (removeFirst_sublist _ repos).nodup hnd
    have hau1 : "All-Users" ∈ removeFirst "All-Projects" repos :=
      (mem_removeFirst_of_ne repos (by decide)).mpr hau
    constructor
    · unfold mainCatalogPrep pyListRemove
      rw [if_pos hap]
      dsimp only
      rw [if_pos hau1]
    · intro r
      rw [mem_removeFirst_iff _ hnd1, mem_removeFirst_iff _ hnd]
      tauto
  · intro repos hmiss
    rcases hmiss with h | h
    · unfold mainCatalogPrep pyListRemove
      rw [if_neg h]
    · by_cases hap : "All-Projects" ∈ repos
      · unfold mainCatalogPrep pyListRemove
        rw [if_pos hap]
        dsimp only
        rw [if_neg h]
      · unfold mainCatalogPrep pyListRemove
        rw [if_neg hap]

/-- C9 witness: a concrete catalog with both administrative names present. -/
theorem c9_admin_names_removed_witness :
    mainCatalogPrep ["All-Projects", "repo-a", "All-Users", "repo-b"] =
      Except.ok (removeFirst "All-Users"
        (removeFirst "All-Projects" ["All-Projects", "repo-a", "All-Users", "repo-b"])) ∧
    ("repo-a" ∈ removeFirst "All-Users"
        (removeFirst "All-Projects" ["All-Projects", "repo-a", "All-Users", "repo-b"]) ↔
      ("repo-a" ∈ ["All-Projects", "repo-a", "All-Users", "repo-b"] ∧
        "repo-a" ≠ "All-Projects" ∧ "repo-a" ≠ "All-Users")) ∧
    mainCatalogPrep ["repo-a"] = Except.error () := by
  refine ⟨?_, ?_, ?_⟩
  · exact (c9_admin_names_removed_or_error.1 _ (by decide) (by decide) (by decide)).1
  · exact (c9_admin_names_removed_or_error.1 _ (by decide) (by decide) (by decide)).2 "repo-a"
  · exact c9_admin_names_removed_or_error.2 ["repo-a"] (Or.inl (by decide))

/- Insertion-sort lemmas for the newest-first file ordering. -/

theorem insertDesc_perm (e : DirEntry) (l : List DirEntry) :
    (insertDesc e l).Perm (e :: l) := by
  induction l with
  | nil => exact List.Perm.refl _
  | cons x xs ih =>
    by_cases h : x.mtime < e.mtime
    · simp [insertDesc, h]
    · simp only [insertDesc, h, if_false]
      exact (ih.cons x).trans (List.Perm.swap e x xs)

theorem sortByMtimeDesc_perm_aux (l : List DirEntry) :
    ∀ acc : List DirEntry,
      (l.foldl (fun acc e => insertDesc e acc) acc).Perm (acc ++ l) := by
  induction l with
  | nil => intro acc; simp
  | cons e rest ih =>
    intro acc
    rw [List.foldl_cons]
    refine ((ih (insertDesc e acc)).trans ?_)
    refine (((insertDesc_perm e acc).append_right rest).trans ?_)
    exact List.perm_middle.symm

theorem sortByMtimeDesc_perm (l : List DirEntry) : (sortByMtimeDesc l).Perm l := by
  simpa using sortByMtimeDesc_perm_aux l []

theorem insertDesc_sorted (e : DirEntry) (l : List DirEntry)
    (h : l.Pairwise (fun a b => b.mtime ≤ a.mtime)) :
    (insertDesc e l).Pairwise (fun a b => b.mtime ≤ a.mtime) := by
  induction l with
  | nil => simp [insertDesc]
  | cons x xs ih =>
    rw [List.pairwise_cons] at h
    by_cases hx : x.mtime < e.mtime
    · simp only [insertDesc, hx, if_true]
      rw [List.pairwise_cons]
      constructor
      · intro y hy
        rcases List.mem_cons.mp hy with rfl | hy2
        · omega
        · have := h.1 y hy2
          omega
      · rw [List.pairwise_cons]
        exact h
    · simp only [insertDesc, hx, if_false]
      rw [List.pairwise_cons]
      constructor
      · intro y hy
        have hy3 := (insertDesc_perm e xs).mem_iff.mp hy
        rcases List.mem_cons.mp hy3 with rfl | hy2
        · omega
        · exact h.1 y hy2
      · exact ih h.2

theorem sortByMtimeDesc_sorted_aux (l : List DirEntry) :
    ∀ acc : List DirEntry, acc.Pairwise (fun a b => b.mtime ≤ a.mtime) →
      (l.foldl (fun acc e => insertDesc e acc) acc).Pairwise (fun a b => b.mtime ≤ a.mtime) := by
  induction l with
  | nil => intro acc h; simpa using h
  | cons e rest ih =>
    intro acc h
    rw [List.foldl_cons]
    exact ih _ (insertDesc_sorted e acc h)

/-- C8 counterexample: a regular file named `data.gz` contains no `.log`
marker, yet `_iter_log_files` enumerates it — the filter also accepts any
`.gz` suffix on its own, so enumeration does not require the log marker. -/
theorem c8_counterexample_gz_without_marker :
    iter_log_files [⟨"data.gz", true, 5⟩] = [⟨"data.gz", true, 5⟩] ∧
    containsSub ".log".data "data.gz".data = false := by
  exact ⟨rfl, rfl⟩

/-- C8 amended: `_iter_log_files` yields exactly the regular files whose name
ends in ".log", ends in ".gz", or contains ".log" anywhere (so a compressed
file is enumerated even without the log marker), sorted by modification time
descending, newest first. -/
theorem c8_enumeration_and_order (dir : List DirEntry) :
    (iter_log_files dir).Perm (dir.filter (fun e => e.isFile && logNamePred e.name)) ∧
    (∀ e : DirEntry, e ∈ iter_log_files dir ↔
      e ∈ dir ∧ e.isFile = true ∧
        (endsWithChars e.name.data ".log".data ∨ endsWithChars e.name.data ".gz".data ∨
          containsSub ".log".data e.name.data)) ∧
    (iter_log_files dir).Pairwise (fun a b => b.mtime ≤ a.mtime) := by
  refine ⟨sortByMtimeDesc_perm _, ?_, ?_⟩
  · intro e
    unfold iter_log_files
    rw [(sortByMtimeDesc_perm _).mem_iff, List.mem_filter]
    simp only [logNamePred, Bool.and_eq_true, Bool.or_eq_true, and_assoc, or_assoc]
  · exact sortByMtimeDesc_sorted_aux _ [] (List.Pairwise.nil)

/-- C5: classification precedence in `_extract_proj` — whenever the direct
pack-transfer pattern matches a line (so on every line matching both patterns,
whatever the generic GET/HEAD fallback would have produced for it), the
returned repository is the pack-transfer capture, percent-decoded, with no
discarded path; and the generic fallback is consulted exactly when the
pack-transfer pattern did not match. -/
theorem c5_pack_transfer_precedence :
    (∀ (line : String) (p : List Char),
      upSearch line.data = some p →
      extract_proj line = (some (pyUnquote (String.mk p)), none)) ∧
    (∀ line : String, upSearch line.data = none →
      extract_proj line = genericFallback line.data) := by
  constructor
  · intro line p h1
    simp [extract_proj, h1]
  · intro line h
    simp [extract_proj, h]

/-- C5 witness: `"GET /projects/foo/git-upload-pack HTTP/1.1"` matches both
patterns with differing results — pattern (1) yields `projects/foo` while the
fallback would yield `foo` — and `_extract_proj` returns pattern (1)'s result;
and the ordinary pack-transfer request
`"GET /repo/info/refs?service=git-upload-pack HTTP/1.1"`, which the fallback
would only discard, is likewise classified by pattern (1). -/
theorem c5_pack_transfer_precedence_witness :
    extract_proj "\"GET /projects/foo/git-upload-pack HTTP/1.1\" 200" =
      (some "projects/foo", none) ∧
    extract_proj "\"GET /repo/info/refs?service=git-upload-pack HTTP/1.1\" 200" =
      (some "repo", none) := by
  constructor
  · have h := c5_pack_transfer_precedence.1
      "\"GET /projects/foo/git-upload-pack HTTP/1.1\" 200" "projects/foo".data (by rfl)
    simpa using h
  · have h := c5_pack_transfer_precedence.1
      "\"GET /repo/info/refs?service=git-upload-pack HTTP/1.1\" 200" "repo".data (by rfl)
    simpa using h

/-- C10: on a line with a valid timestamp whose request path (after the
optional `/a/` strip) starts with `/projects/` but has an empty project
segment, `_extract_proj` returns the empty string as the repository with no
discarded path, and the scanner drops the line entirely, recording neither a
read observation nor a discarded-path entry (the state is unchanged). -/
theorem c10_empty_project_segment_dropped :
    ∀ (line : String) (u : List Char),
      (pyExtractTs line).isSome = true →
      upSearch line.data = none →
      httpSearch line.data = some u →
      startsWithChars "/projects/".data (stripAslash (fallbackPath u)) = true →
      (pySplitChar (stripAslash (fallbackPath u)) '/').getD 2 [] = [] →
      extract_proj line = (some "", none) ∧ ∀ st : ScanState, scanLine st line = st := by
  intro line u _hts h1 h2 h3 h4
  have hext : extract_proj line = (some "", none) := by
    simp only [extract_proj, h1, genericFallback, h2, h3, if_true, h4]
    rfl
  refine ⟨hext, ?_⟩
  intro st
  unfold scanLine
  cases hts2 : pyExtractTs line with
  | none => rfl
  | some ts =>
    simp only [hext, pyTruthyS]
    rfl

/-- C10 witness: the request `"GET /projects/ HTTP/1.1"` with a parseable
timestamp is dropped without touching the scanner state. -/
theorem c10_empty_project_segment_witness :
    extract_proj "10.0.0.1 [2024-01-01T00:00:00.0Z] \"GET /projects/ HTTP/1.1\" 404" =
      (some "", none) ∧
    scanLine ⟨[("x", ⟨2023, 1, 1, 0, 0, 0, 0⟩)], ["y"]⟩
        "10.0.0.1 [2024-01-01T00:00:00.0Z] \"GET /projects/ HTTP/1.1\" 404" =
      ⟨[("x", ⟨2023, 1, 1, 0, 0, 0, 0⟩)], ["y"]⟩ := by
  have h := c10_empty_project_segment_dropped
    "10.0.0.1 [2024-01-01T00:00:00.0Z] \"GET /projects/ HTTP/1.1\" 404"
    "/projects/".data (by rfl) (by rfl) (by rfl) (by rfl) (by rfl)
  exact ⟨h.1, h.2 _⟩

/- The creation decision reads only the creation field of the prior report. -/
theorem mainCreationFor_congr (ex1 ex2 : List (String × ExistingRec))
    (hist : String → Option String) (repo : String)
    (h : creationOf ex1 repo = creationOf ex2 repo) :
    mainCreationFor ex1 hist repo = mainCreationFor ex2 hist repo := by
  unfold mainCreationFor
  unfold creationOf at h
  rw [h]

/-- C7: the emitted last_read comes exclusively from this run's freshly
computed mapping — the whole written report is unchanged under any change to
the prior report's stored last_read values (two prior reports agreeing on
creation dates produce identical output), and every catalog repository with no
read observation this run is written with the "N/A" cell in the last-read
column even though the prior report may hold a last_read value for it. -/
theorem c7_last_read_not_carried_forward
    (repos : List String) (ex1 ex2 : List (String × ExistingRec))
    (hist : String → Option String) (lastReads : List (String × Datetime))
    (hagree : ∀ r, creationOf ex1 r = creationOf ex2 r) :
    write_to_csv (mainRows repos ex1 hist lastReads) =
      write_to_csv (mainRows repos ex2 hist lastReads) ∧
    (∀ r ∈ mainRows repos ex1 hist lastReads, r.2.2 = dictGet lastReads r.1) ∧
    (∀ repo ∈ repos, dictGet lastReads repo = none →
      [repo, pyOrNA (mainCreationFor ex1 hist repo).1, "N/A"] ∈
        write_to_csv (mainRows repos ex1 hist lastReads)) := by
  refine ⟨?_, ?_, ?_⟩
  · unfold write_to_csv mainRows
    congr 1
    rw [List.map_map, List.map_map]
    apply List.map_congr_left
    intro repo _
    simp only [Function.comp_apply]
    rw [mainCreationFor_congr ex1 ex2 hist repo (hagree repo)]
  · intro r hr
    obtain ⟨repo, _, rfl⟩ := List.mem_map.mp hr
    rfl
  · intro repo hmem habs
    unfold write_to_csv
    apply List.mem_cons_of_mem
    have : [repo, pyOrNA (mainCreationFor ex1 hist repo).1, "N/A"] =
        writeCsvRow (repo, (mainCreationFor ex1 hist repo).1, dictGet lastReads repo) := by
      rw [habs]
      rfl
    rw [this]
    exact List.mem_map_of_mem _ (by
      unfold mainRows
      exact List.mem_map_of_mem _ hmem)

/-- C7 witness: a prior report holding a stale last_read for `repo-a` does not
leak into the new report; `repo-a` has no observation this run and is written
with "N/A". -/
theorem c7_last_read_not_carried_forward_witness :
    write_to_csv (mainRows ["repo-a"] [("repo-a", ⟨some "2020-01-01", some "2023-05-05 00:00:00+00:00"⟩)]
        (fun _ => none) []) =
      write_to_csv (mainRows ["repo-a"] [("repo-a", ⟨some "2020-01-01", none⟩)]
        (fun _ => none) []) ∧
    ["repo-a", "2020-01-01", "N/A"] ∈
      write_to_csv (mainRows ["repo-a"] [("repo-a", ⟨some "2020-01-01", some "2023-05-05 00:00:00+00:00"⟩)]
        (fun _ => none) []) := by
  have h := c7_last_read_not_carried_forward ["repo-a"]
    [("repo-a", ⟨some "2020-01-01", some "2023-05-05 00:00:00+00:00"⟩)]
    [("repo-a", ⟨some "2020-01-01", none⟩)] (fun _ => none) []
    (by
      intro r
      by_cases h : ("repo-a" : String) = r
      · subst h; rfl
      · unfold creationOf dictGet
        rw [List.find?_cons_of_neg _ (by simp [h]), List.find?_cons_of_neg _ (by simp [h])])
  refine ⟨h.1, ?_⟩
  have h3 := h.2.2 "repo-a" (by simp) (by rfl)
  simpa using h3

/- How one scanned line changes the last-read mapping, expressed through the
   observation it carries. -/
theorem dictGet_scanLine (st : ScanState) (line : String) (p : String) :
    dictGet (scanLine st line).lastReads p =
      match lineObs line with
      | some (q, t) =>
        if q = p then omaxD (dictGet st.lastReads p) t else dictGet st.lastReads p
      | none => dictGet st.lastReads p := by
  rcases hpd : extract_proj line with ⟨p1, p2⟩
  cases hts : pyExtractTs line with
  | none =>
    have hobs : lineObs line = none := by unfold lineObs; rw [hts]
    unfold scanLine
    rw [hts, hobs]
  | some ts =>
    unfold scanLine
    rw [hts]
    dsimp only
    rw [hpd]
    dsimp only
    cases p1 with
    | none =>
      have hobs : lineObs line = none := by unfold lineObs; rw [hts, hpd]
      rw [hobs]
      simp only [pyTruthyS, Bool.false_eq_true, if_false]
      split_ifs <;> rfl
    | some pv =>
      by_cases hpv : pv = ""
      · subst hpv
        have hobs : lineObs line = none := by
          unfold lineObs
          rw [hts, hpd]
          rfl
        rw [hobs]
        simp only [pyTruthyS, bne_self_eq_false, Bool.false_eq_true, if_false]
        split_ifs <;> rfl
      · have hobs : lineObs line = some (pv, ts) := by
          unfold lineObs
          rw [hts, hpd]
          simp [hpv]
        rw [hobs]
        have htr : pyTruthyS (some pv) = true := by simp [pyTruthyS, hpv]
        rw [if_pos htr]
        dsimp only [Option.getD]
        by_cases hq : pv = p
        · subst hq
          rw [if_pos rfl]
          cases hprev : dictGet st.lastReads pv with
          | none =>
            dsimp only
            rw [dictGet_set_self]
            rfl
          | some prev =>
            dsimp only
            cases hlt : dtLt prev ts with
            | true =>
              simp only [hlt, if_true]
              rw [dictGet_set_self]
              simp [omaxD, maxD, hlt]
            | false =>
              simp only [hlt, Bool.false_eq_true, if_false]
              rw [hprev]
              simp [omaxD, maxD, hlt]
        · rw [if_neg hq]
          cases hprev : dictGet st.lastReads pv with
          | none =>
            dsimp only
            exact dictGet_set_ne _ _ _ _ (fun hh => hq hh.symm)
          | some prev =>
            dsimp only
            cases hlt : dtLt prev ts with
            | true =>
              simp only [hlt, if_true]
              exact dictGet_set_ne _ _ _ _ (fun hh => hq hh.symm)
            | false =>
              simp only [hlt, Bool.false_eq_true, if_false]

/- The scanned mapping equals the left fold of the per-repository observation
   timestamps over the line stream. -/
theorem scanLines_lookup (lines : List String) :
    ∀ (st : ScanState) (p : String),
      dictGet (scanLines st lines).lastReads p =
        (obsFor p lines).foldl omaxD (dictGet st.lastReads p) := by
  induction lines with
  | nil => intro st p; rfl
  | cons l rest ih =>
    intro st p
    have hstep : scanLines st (l :: rest) = scanLines (scanLine st l) rest := by
      simp [scanLines, List.foldl_cons]
    rw [hstep, ih]
    unfold obsFor
    rw [List.filterMap_cons]
    have hline := dictGet_scanLine st l p
    cases hobs : lineObs l with
    | none =>
      rw [hobs] at hline
      rw [hline]
    | some qt =>
      obtain ⟨q, t⟩ := qt
      rw [hobs] at hline
      dsimp only at hline
      dsimp only
      by_cases hq : q = p
      · subst hq
        rw [if_pos rfl] at hline
        rw [if_pos rfl]
        dsimp only
        rw [List.foldl_cons, hline]
      · rw [if_neg hq] at hline
        rw [if_neg hq]
        dsimp only
        rw [hline]

/- The discarded set after one line. -/
theorem scanLine_discarded (st : ScanState) (line : String) :
    (scanLine st line).discarded =
      match lineDisc line with
      | some u => setAdd st.discarded u
      | none => st.discarded := by
  rcases hpd : extract_proj line with ⟨p1, p2⟩
  cases hts : pyExtractTs line with
  | none =>
    have hdisc : lineDisc line = none := by unfold lineDisc; rw [hts]
    unfold scanLine
    rw [hts, hdisc]
  | some ts =>
    unfold scanLine
    rw [hts]
    dsimp only
    rw [hpd]
    dsimp only
    cases h1 : pyTruthyS p1 with
    | true =>
      have hdisc : lineDisc line = none := by
        unfold lineDisc
        rw [hts, hpd]
        dsimp only
        rw [h1]
        rfl
      rw [hdisc, if_pos rfl]
      cases dictGet st.lastReads (p1.getD "") with
      | none => rfl
      | some prev =>
        dsimp only
        split_ifs <;> rfl
    | false =>
      simp only [Bool.false_eq_true, if_false]
      cases h2 : pyTruthyS p2 with
      | true =>
        have hdisc : lineDisc line = some (p2.getD "") := by
          unfold lineDisc
          rw [hts, hpd]
          dsimp only
          rw [h1, h2]
          rfl
        rw [hdisc, if_pos rfl]
      | false =>
        have hdisc : lineDisc line = none := by
          unfold lineDisc
          rw [hts, hpd]
          dsimp only
          rw [h1, h2]
          rfl
        rw [hdisc]
        simp only [Bool.false_eq_true, if_false]

theorem mem_setAdd (l : List String) (v u : String) :
    u ∈ setAdd l v ↔ u ∈ l ∨ u = v := by
  unfold setAdd
  by_cases h : v ∈ l
  · rw [if_pos h]
    constructor
    · exact Or.inl
    · rintro (hu | rfl)
      · exact hu
      · exact h
  · rw [if_neg h]
    simp [List.mem_append]

theorem setAdd_nodup (l : List String) (v : String) (h : l.Nodup) :
    (setAdd l v).Nodup := by
  unfold setAdd
  by_cases hv : v ∈ l
  · rw [if_pos hv]; exact h
  · rw [if_neg hv]
    simpa [List.nodup_append] using ⟨h, hv⟩

theorem mem_scanLines_discarded (lines : List String) :
    ∀ (st : ScanState) (u : String),
      u ∈ (scanLines st lines).discarded ↔
        u ∈ st.discarded ∨ u ∈ lines.filterMap lineDisc := by
  induction lines with
  | nil => intro st u; simp [scanLines]
  | cons l rest ih =>
    intro st u
    have hstep : scanLines st (l :: rest) = scanLines (scanLine st l) rest := by
      simp [scanLines, List.foldl_cons]
    rw [hstep, ih, List.filterMap_cons]
    have hd := scanLine_discarded st l
    cases hdisc : lineDisc l with
    | none =>
      rw [hdisc] at hd
      rw [hd]
    | some v =>
      rw [hdisc] at hd
      rw [hd, mem_setAdd]
      simp only [List.mem_cons]
      tauto

theorem scanLines_discarded_nodup (lines : List String) :
    ∀ st : ScanState, st.discarded.Nodup → (scanLines st lines).discarded.Nodup := by
  induction lines with
  | nil => intro st h; exact h
  | cons l rest ih =>
    intro st h
    have hstep : scanLines st (l :: rest) = scanLines (scanLine st l) rest := by
      simp [scanLines, List.foldl_cons]
    rw [hstep]
    apply ih
    rw [scanLine_discarded]
    cases lineDisc l with
    | none => exact h
    | some v => exact setAdd_nodup _ _ h

/- The whole-run scanner is the line scanner over the concatenated stream. -/
theorem get_last_reads_eq_join (files : List (List String)) :
    get_last_reads_from_logs files = scanLines ⟨[], []⟩ files.flatten := by
  unfold get_last_reads_from_logs scanLines
  rw [List.foldl_flatten]

/-- C4: invariant of the scan fold — after `get_last_reads_from_logs`
processes a line stream, the mapping entry for each repository is the fold by
maximum of all matched observations attributing a read to it (absent when
there are none); and at each step a line observed for a repository with a
greater timestamp than the previously folded value replaces it, while a lesser
or equal timestamp leaves the entry unchanged. -/
theorem c4_scan_fold_invariant :
    (∀ (files : List (List String)) (p : String),
      dictGet (get_last_reads_from_logs files).lastReads p =
        (obsFor p files.flatten).foldl omaxD none) ∧
    (∀ (st : ScanState) (line q : String) (ts prev : Datetime),
      lineObs line = some (q, ts) → dictGet st.lastReads q = some prev →
      dictGet (scanLine st line).lastReads q =
        some (if dtLt prev ts then ts else prev)) := by
  constructor
  · intro files p
    rw [get_last_reads_eq_join, scanLines_lookup]
    rfl
  · intro st line q ts prev hobs hprev
    have h := dictGet_scanLine st line q
    rw [hobs] at h
    dsimp only at h
    rw [if_pos rfl, hprev] at h
    rw [h]
    simp [omaxD, maxD]

/-- C4 witness: one upload-pack line for `foo`; the folded entry equals the
fold of its observations, and a second, older observation leaves the folded
value unchanged while a newer one would replace it. -/
theorem c4_scan_fold_invariant_witness :
    dictGet (get_last_reads_from_logs
        [["x [2024-01-01T10:00:00.0Z] \"GET /p/foo/git-upload-pack HTTP/1.1\""]]).lastReads "foo" =
      (obsFor "foo"
        [["x [2024-01-01T10:00:00.0Z] \"GET /p/foo/git-upload-pack HTTP/1.1\""]].flatten).foldl
        omaxD none ∧
    dictGet (scanLine ⟨[("foo", ⟨2024, 1, 1, 11, 0, 0, 0⟩)], []⟩
        "x [2024-01-01T10:00:00.0Z] \"GET /p/foo/git-upload-pack HTTP/1.1\"").lastReads "foo" =
      some (if dtLt ⟨2024, 1, 1, 11, 0, 0, 0⟩ ⟨2024, 1, 1, 10, 0, 0, 0⟩
        then ⟨2024, 1, 1, 10, 0, 0, 0⟩ else ⟨2024, 1, 1, 11, 0, 0, 0⟩) := by
  constructor
  · exact c4_scan_fold_invariant.1 _ "foo"
  · exact c4_scan_fold_invariant.2 _ _ "foo" ⟨2024, 1, 1, 10, 0, 0, 0⟩
      ⟨2024, 1, 1, 11, 0, 0, 0⟩ (by rfl) (by rfl)

/-- C6: order-independence of scanning — for any two partitions of the same
multiset of log lines into files (in any order), the scan produces the same
repository-to-last-read mapping and the same set of discarded paths, and each
discarded path is recorded exactly once however often it recurs. -/
theorem c6_scan_order_independent :
    ∀ files1 files2 : List (List String), files1.flatten.Perm files2.flatten →
      (∀ p, dictGet (get_last_reads_from_logs files1).lastReads p =
        dictGet (get_last_reads_from_logs files2).lastReads p) ∧
      (∀ u, u ∈ (get_last_reads_from_logs files1).discarded ↔
        u ∈ (get_last_reads_from_logs files2).discarded) ∧
      (∀ u, u ∈ (get_last_reads_from_logs files1).discarded →
        (get_last_reads_from_logs files1).discarded.count u = 1) := by
  intro files1 files2 hperm
  refine ⟨?_, ?_, ?_⟩
  · intro p
    rw [get_last_reads_eq_join, get_last_reads_eq_join, scanLines_lookup, scanLines_lookup]
    exact foldl_omaxD_perm (hperm.filterMap _) _
  · intro u
    rw [get_last_reads_eq_join, get_last_reads_eq_join,
        mem_scanLines_discarded, mem_scanLines_discarded]
    rw [(hperm.filterMap lineDisc).mem_iff]
  · intro u hu
    rw [get_last_reads_eq_join] at hu ⊢
    have hnd : (scanLines ⟨[], []⟩ files1.flatten).discarded.Nodup :=
      scanLines_discarded_nodup _ _ (by simp)
    exact List.count_eq_one_of_mem hnd hu

/-- C6 witness: the same two lines, as one file or as two files in swapped
order, give the same mapping for `foo` and the same discarded set, with the
recurring discarded path recorded once. -/
theorem c6_scan_order_independent_witness :
    (dictGet (get_last_reads_from_logs
        [["a [2024-01-01T10:00:00.0Z] \"GET /p/foo/git-upload-pack HTTP/1.1\"",
          "a [2024-01-02T00:00:00.0Z] \"GET /static/x.png HTTP/1.1\""]]).lastReads "foo" =
      dictGet (get_last_reads_from_logs
        [["a [2024-01-02T00:00:00.0Z] \"GET /static/x.png HTTP/1.1\""],
         ["a [2024-01-01T10:00:00.0Z] \"GET /p/foo/git-upload-pack HTTP/1.1\""]]).lastReads "foo") ∧
    ("/static/x.png" ∈ (get_last_reads_from_logs
        [["a [2024-01-01T10:00:00.0Z] \"GET /p/foo/git-upload-pack HTTP/1.1\"",
          "a [2024-01-02T00:00:00.0Z] \"GET /static/x.png HTTP/1.1\""]]).discarded ↔
      "/static/x.png" ∈ (get_last_reads_from_logs
        [["a [2024-01-02T00:00:00.0Z] \"GET /static/x.png HTTP/1.1\""],
         ["a [2024-01-01T10:00:00.0Z] \"GET /p/foo/git-upload-pack HTTP/1.1\""]]).discarded) ∧
    (get_last_reads_from_logs
        [["a [2024-01-01T10:00:00.0Z] \"GET /p/foo/git-upload-pack HTTP/1.1\"",
          "a [2024-01-02T00:00:00.0Z] \"GET /static/x.png HTTP/1.1\""]]).discarded.count
      "/static/x.png" = 1 := by
  have hperm :
      ([["a [2024-01-01T10:00:00.0Z] \"GET /p/foo/git-upload-pack HTTP/1.1\"",
         "a [2024-01-02T00:00:00.0Z] \"GET /static/x.png HTTP/1.1\""]] :
        List (List String)).flatten.Perm
        ([["a [2024-01-02T00:00:00.0Z] \"GET /static/x.png HTTP/1.1\""],
          ["a [2024-01-01T10:00:00.0Z] \"GET /p/foo/git-upload-pack HTTP/1.1\""]] :
        List (List String)).flatten := by
    simpa using List.Perm.swap
      "a [2024-01-02T00:00:00.0Z] \"GET /static/x.png HTTP/1.1\""
      "a [2024-01-01T10:00:00.0Z] \"GET /p/foo/git-upload-pack HTTP/1.1\"" []
  have h := c6_scan_order_independent _ _ hperm
  exact ⟨h.1 "foo", h.2.1 "/static/x.png", h.2.2 "/static/x.png" (by decide)⟩

/- Support lemmas for the timestamp claims. -/

theorem dval_le_of_isDig {c : Char} (h : isDig c = true) : dval c ≤ 9 := by
  simp only [isDig, Bool.and_eq_true, decide_eq_true_eq] at h
  unfold dval
  omega

theorem matchTsAt_not_bracket {c : Char} (l : List Char) (h : c ≠ '[') :
    matchTsAt (c :: l) = none := by
  unfold matchTsAt
  have he : expectCh '[' (c :: l) = none := by simp [expectCh, h]
  rw [he]

theorem tsSearch_append_no_bracket (pre l : List Char) (h : '[' ∉ pre) :
    tsSearch (pre ++ l) = tsSearch l := by
  induction pre with
  | nil => rfl
  | cons c r ih =>
    rw [List.mem_cons, not_or] at h
    rw [List.cons_append, tsSearch, matchTsAt_not_bracket _ (fun hc => h.1 hc.symm)]
    exact ih h.2

theorem takeWhile_digits_append (frac l : List Char)
    (hf : ∀ c ∈ frac, isDig c = true) :
    (frac ++ 'Z' :: l).takeWhile isDig = frac ∧
    (frac ++ 'Z' :: l).dropWhile isDig = 'Z' :: l := by
  induction frac with
  | nil =>
    have hz : isDig 'Z' = false := by decide
    constructor
    · rw [List.nil_append, List.takeWhile_cons, hz]
      simp
    · rw [List.nil_append, List.dropWhile_cons, hz]
      simp
  | cons c r ih =>
    have hc : isDig c = true := hf c (List.mem_cons_self _ _)
    have ihr := ih (fun c' hc' => hf c' (List.mem_cons_of_mem _ hc'))
    constructor
    · rw [List.cons_append, List.takeWhile_cons, hc, if_pos rfl, ihr.1]
    · rw [List.cons_append, List.dropWhile_cons, hc, if_pos rfl, ihr.2]

theorem digitsVal_foldl_lt (l : List Char) :
    ∀ a : Nat, (∀ c ∈ l, isDig c = true) →
      l.foldl (fun acc c => 10 * acc + dval c) a < (a + 1) * 10 ^ l.length := by
  induction l with
  | nil =>
    intro a _
    simp only [List.foldl_nil, List.length_nil, pow_zero, mul_one]
    exact Nat.lt_succ_self a
  | cons c r ih =>
    intro a hl
    have hc := dval_le_of_isDig (hl c (List.mem_cons_self _ _))
    have ihr := ih (10 * a + dval c) (fun c' hc' => hl c' (List.mem_cons_of_mem _ hc'))
    rw [List.foldl_cons, List.length_cons]
    calc r.foldl (fun acc c => 10 * acc + dval c) (10 * a + dval c)
        < (10 * a + dval c + 1) * 10 ^ r.length := ihr
      _ ≤ ((a + 1) * 10) * 10 ^ r.length := by
          apply Nat.mul_le_mul_right
          omega
      _ = (a + 1) * 10 ^ (r.length + 1) := by ring

theorem digitsVal_lt (l : List Char) (h : ∀ c ∈ l, isDig c = true) :
    digitsVal l < 10 ^ l.length := by
  have h2 := digitsVal_foldl_lt l 0 h
  simp [digitsVal]
  simpa using h2

theorem usec_lt (frac : List Char) (h : ∀ c ∈ frac, isDig c = true)
    (hlen : frac.length ≤ 6) :
    digitsVal frac * 10 ^ (6 - frac.length) ≤ 999999 := by
  have h1 := digitsVal_lt frac h
  have h2 : digitsVal frac * 10 ^ (6 - frac.length) <
      10 ^ frac.length * 10 ^ (6 - frac.length) := by
    apply Nat.mul_lt_mul_right (Nat.pos_pow_of_pos _ (by norm_num)) |>.mpr h1
  have h3 : 10 ^ frac.length * 10 ^ (6 - frac.length) = 10 ^ 6 := by
    rw [← pow_add]
    congr 1
    omega
  rw [h3] at h2
  omega

/- Consuming a fixed-width stem made of fourteen digit characters. -/
theorem parseStem_explicit (y1 y2 y3 y4 m1 m2 d1 d2 h1 h2 i1 i2 s1 s2 : Char)
    (rest : List Char)
    (hy1 : isDig y1 = true) (hy2 : isDig y2 = true) (hy3 : isDig y3 = true)
    (hy4 : isDig y4 = true) (hm1 : isDig m1 = true) (hm2 : isDig m2 = true)
    (hd1 : isDig d1 = true) (hd2 : isDig d2 = true) (hh1 : isDig h1 = true)
    (hh2 : isDig h2 = true) (hi1 : isDig i1 = true) (hi2 : isDig i2 = true)
    (hs1 : isDig s1 = true) (hs2 : isDig s2 = true) :
    parseStem (y1 :: y2 :: y3 :: y4 :: '-' :: m1 :: m2 :: '-' :: d1 :: d2 :: 'T' ::
        h1 :: h2 :: ':' :: i1 :: i2 :: ':' :: s1 :: s2 :: rest) =
      some (⟨y1, y2, y3, y4, m1, m2, d1, d2, h1, h2, i1, i2, s1, s2⟩, rest) := by
  simp [parseStem, expect2Digits, expectDig, expectCh,
    hy1, hy2, hy3, hy4, hm1, hm2, hd1, hd2, hh1, hh2, hi1, hi2, hs1, hs2]

/- `_TS_RE` matched at a bracket, fraction present. -/
theorem matchTsAt_with_frac (y1 y2 y3 y4 m1 m2 d1 d2 h1 h2 i1 i2 s1 s2 : Char)
    (frac rest : List Char)
    (hy1 : isDig y1 = true) (hy2 : isDig y2 = true) (hy3 : isDig y3 = true)
    (hy4 : isDig y4 = true) (hm1 : isDig m1 = true) (hm2 : isDig m2 = true)
    (hd1 : isDig d1 = true) (hd2 : isDig d2 = true) (hh1 : isDig h1 = true)
    (hh2 : isDig h2 = true) (hi1 : isDig i1 = true) (hi2 : isDig i2 = true)
    (hs1 : isDig s1 = true) (hs2 : isDig s2 = true)
    (hfrac : frac ≠ []) (hfd : ∀ c ∈ frac, isDig c = true) :
    matchTsAt ('[' :: y1 :: y2 :: y3 :: y4 :: '-' :: m1 :: m2 :: '-' :: d1 :: d2 :: 'T' ::
        h1 :: h2 :: ':' :: i1 :: i2 :: ':' :: s1 :: s2 :: '.' ::
        (frac ++ 'Z' :: ']' :: rest)) =
      some ([y1, y2, y3, y4, '-', m1, m2, '-', d1, d2, 'T', h1, h2, ':', i1, i2, ':',
        s1, s2] ++ '.' :: frac ++ ['Z']) := by
  unfold matchTsAt
  have he : expectCh '[' ('[' :: y1 :: y2 :: y3 :: y4 :: '-' :: m1 :: m2 :: '-' :: d1 ::
      d2 :: 'T' :: h1 :: h2 :: ':' :: i1 :: i2 :: ':' :: s1 :: s2 :: '.' ::
      (frac ++ 'Z' :: ']' :: rest)) = some (y1 :: y2 :: y3 :: y4 :: '-' :: m1 :: m2 ::
      '-' :: d1 :: d2 :: 'T' :: h1 :: h2 :: ':' :: i1 :: i2 :: ':' :: s1 :: s2 :: '.' ::
      (frac ++ 'Z' :: ']' :: rest)) := by
    simp [expectCh]
  rw [he]
  dsimp only
  rw [parseStem_explicit y1 y2 y3 y4 m1 m2 d1 d2 h1 h2 i1 i2 s1 s2 _
    hy1 hy2 hy3 hy4 hm1 hm2 hd1 hd2 hh1 hh2 hi1 hi2 hs1 hs2]
  dsimp only
  have hdot : expectCh '.' ('.' :: (frac ++ 'Z' :: ']' :: rest)) =
      some (frac ++ 'Z' :: ']' :: rest) := by
    simp [expectCh]
  rw [hdot]
  dsimp only
  rw [(takeWhile_digits_append frac (']' :: rest) hfd).1,
      (takeWhile_digits_append frac (']' :: rest) hfd).2]
  rw [if_neg hfrac]
  have hz : expectCh 'Z' ('Z' :: ']' :: rest) = some (']' :: rest) := by
    simp [expectCh]
  rw [hz]
  dsimp only
  have hb : expectCh ']' (']' :: rest) = some rest := by
    simp [expectCh]
  rw [hb]
  rfl

/- `_TS_RE` matched at a bracket, no fraction. -/
theorem matchTsAt_no_frac (y1 y2 y3 y4 m1 m2 d1 d2 h1 h2 i1 i2 s1 s2 : Char)
    (rest : List Char)
    (hy1 : isDig y1 = true) (hy2 : isDig y2 = true) (hy3 : isDig y3 = true)
    (hy4 : isDig y4 = true) (hm1 : isDig m1 = true) (hm2 : isDig m2 = true)
    (hd1 : isDig d1 = true) (hd2 : isDig d2 = true) (hh1 : isDig h1 = true)
    (hh2 : isDig h2 = true) (hi1 : isDig i1 = true) (hi2 : isDig i2 = true)
    (hs1 : isDig s1 = true) (hs2 : isDig s2 = true) :
    matchTsAt ('[' :: y1 :: y2 :: y3 :: y4 :: '-' :: m1 :: m2 :: '-' :: d1 :: d2 :: 'T' ::
        h1 :: h2 :: ':' :: i1 :: i2 :: ':' :: s1 :: s2 :: 'Z' :: ']' :: rest) =
      some ([y1, y2, y3, y4, '-', m1, m2, '-', d1, d2, 'T', h1, h2, ':', i1, i2, ':',
        s1, s2] ++ ['Z']) := by
  unfold matchTsAt
  have he : expectCh '[' ('[' :: y1 :: y2 :: y3 :: y4 :: '-' :: m1 :: m2 :: '-' :: d1 ::
      d2 :: 'T' :: h1 :: h2 :: ':' :: i1 :: i2 :: ':' :: s1 :: s2 :: 'Z' :: ']' :: rest) =
      some (y1 :: y2 :: y3 :: y4 :: '-' :: m1 :: m2 :: '-' :: d1 :: d2 :: 'T' :: h1 ::
      h2 :: ':' :: i1 :: i2 :: ':' :: s1 :: s2 :: 'Z' :: ']' :: rest) := by
    simp [expectCh]
  rw [he]
  dsimp only
  rw [parseStem_explicit y1 y2 y3 y4 m1 m2 d1 d2 h1 h2 i1 i2 s1 s2 _
    hy1 hy2 hy3 hy4 hm1 hm2 hd1 hd2 hh1 hh2 hi1 hi2 hs1 hs2]
  dsimp only
  have hdot : expectCh '.' ('Z' :: ']' :: rest) = none := by
    simp [expectCh]
  rw [hdot]
  dsimp only
  have hz : expectCh 'Z' ('Z' :: ']' :: rest) = some (']' :: rest) := by
    simp [expectCh]
  rw [hz]
  dsimp only
  have hb : expectCh ']' (']' :: rest) = some rest := by
    simp [expectCh]
  rw [hb]
  rfl

/- `strptime` on a captured token with a fractional part. -/
theorem pyStrptimeTs_with_frac (y1 y2 y3 y4 m1 m2 d1 d2 h1 h2 i1 i2 s1 s2 : Char)
    (frac : List Char)
    (hy1 : isDig y1 = true) (hy2 : isDig y2 = true) (hy3 : isDig y3 = true)
    (hy4 : isDig y4 = true) (hm1 : isDig m1 = true) (hm2 : isDig m2 = true)
    (hd1 : isDig d1 = true) (hd2 : isDig d2 = true) (hh1 : isDig h1 = true)
    (hh2 : isDig h2 = true) (hi1 : isDig i1 = true) (hi2 : isDig i2 = true)
    (hs1 : isDig s1 = true) (hs2 : isDig s2 = true)
    (hfrac : frac ≠ []) (hlen : frac.length ≤ 6) (hfd : ∀ c ∈ frac, isDig c = true) :
    pyStrptimeTs ([y1, y2, y3, y4, '-', m1, m2, '-', d1, d2, 'T', h1, h2, ':', i1, i2,
        ':', s1, s2] ++ '.' :: frac ++ ['Z']) =
      mkValidDatetime (val4 y1 y2 y3 y4) (val2 m1 m2) (val2 d1 d2) (val2 h1 h2)
        (val2 i1 i2) (val2 s1 s2) (digitsVal frac * 10 ^ (6 - frac.length)) := by
  unfold pyStrptimeTs
  have hshape : ([y1, y2, y3, y4, '-', m1, m2, '-', d1, d2, 'T', h1, h2, ':', i1, i2,
      ':', s1, s2] ++ '.' :: frac ++ ['Z']) =
      (y1 :: y2 :: y3 :: y4 :: '-' :: m1 :: m2 :: '-' :: d1 :: d2 :: 'T' :: h1 :: h2 ::
        ':' :: i1 :: i2 :: ':' :: s1 :: s2 :: ('.' :: (frac ++ ['Z']))) := by
    simp
  rw [hshape, parseStem_explicit y1 y2 y3 y4 m1 m2 d1 d2 h1 h2 i1 i2 s1 s2 _
    hy1 hy2 hy3 hy4 hm1 hm2 hd1 hd2 hh1 hh2 hi1 hi2 hs1 hs2]
  dsimp only
  have hdot : expectCh '.' ('.' :: (frac ++ ['Z'])) = some (frac ++ ['Z']) := by
    simp [expectCh]
  rw [hdot]
  dsimp only
  have htk := takeWhile_digits_append frac [] hfd
  rw [htk.1, htk.2]
  have hlen1 : 1 ≤ frac.length := by
    cases frac with
    | nil => exact absurd rfl hfrac
    | cons c r => simp
  rw [if_pos ⟨hlen1, hlen⟩]
  have hz : expectCh 'Z' ('Z' :: ([] : List Char)) = some [] := by
    simp [expectCh]
  rw [hz]

/- `strptime` on a captured token without a fractional part: the format string
   requires a literal dot, so conversion fails. -/
theorem pyStrptimeTs_no_frac (y1 y2 y3 y4 m1 m2 d1 d2 h1 h2 i1 i2 s1 s2 : Char)
    (hy1 : isDig y1 = true) (hy2 : isDig y2 = true) (hy3 : isDig y3 = true)
    (hy4 : isDig y4 = true) (hm1 : isDig m1 = true) (hm2 : isDig m2 = true)
    (hd1 : isDig d1 = true) (hd2 : isDig d2 = true) (hh1 : isDig h1 = true)
    (hh2 : isDig h2 = true) (hi1 : isDig i1 = true) (hi2 : isDig i2 = true)
    (hs1 : isDig s1 = true) (hs2 : isDig s2 = true) :
    pyStrptimeTs ([y1, y2, y3, y4, '-', m1, m2, '-', d1, d2, 'T', h1, h2, ':', i1, i2,
        ':', s1, s2] ++ ['Z']) = none := by
  unfold pyStrptimeTs
  have hshape : ([y1, y2, y3, y4, '-', m1, m2, '-', d1, d2, 'T', h1, h2, ':', i1, i2,
      ':', s1, s2] ++ ['Z']) =
      (y1 :: y2 :: y3 :: y4 :: '-' :: m1 :: m2 :: '-' :: d1 :: d2 :: 'T' :: h1 :: h2 ::
        ':' :: i1 :: i2 :: ':' :: s1 :: s2 :: ('Z' :: ([] : List Char))) := by
    simp
  rw [hshape, parseStem_explicit y1 y2 y3 y4 m1 m2 d1 d2 h1 h2 i1 i2 s1 s2 _
    hy1 hy2 hy3 hy4 hm1 hm2 hd1 hd2 hh1 hh2 hi1 hi2 hs1 hs2]
  dsimp only
  have hdot : expectCh '.' ('Z' :: ([] : List Char)) = none := by
    simp [expectCh]
  rw [hdot]

/-- C3 counterexample: the line contains a bracketed token of the fixed shape
with no fractional part — the pattern matches and captures the token — yet
`_extract_ts` returns None (the strptime format demands fractional seconds),
so the line is skipped rather than yielding the instant. -/
theorem c3_counterexample_no_fraction_token :
    tsSearch "abc [2024-01-01T00:00:00Z] x".data = some "2024-01-01T00:00:00Z".data ∧
    pyExtractTs "abc [2024-01-01T00:00:00Z] x" = none := by
  exact ⟨rfl, rfl⟩

/-- C3 amended: for every log line containing a bracketed timestamp token of
the fixed shape at the first bracket, `_extract_ts` returns the UTC instant
only when the token carries a fractional-seconds part of one to six digits and
semantically valid fields; a matched token without a fractional part is
unparsable by the converter (whose format requires fractional seconds) and
yields None, skipping the line; when the pattern is absent, None is returned. -/
theorem c3_extract_ts_requires_fraction :
    (∀ (pre : List Char) (y1 y2 y3 y4 m1 m2 d1 d2 h1 h2 i1 i2 s1 s2 : Char)
      (frac rest : List Char),
      '[' ∉ pre →
      (isDig y1 = true ∧ isDig y2 = true ∧ isDig y3 = true ∧ isDig y4 = true ∧
       isDig m1 = true ∧ isDig m2 = true ∧ isDig d1 = true ∧ isDig d2 = true ∧
       isDig h1 = true ∧ isDig h2 = true ∧ isDig i1 = true ∧ isDig i2 = true ∧
       isDig s1 = true ∧ isDig s2 = true) →
      frac ≠ [] → frac.length ≤ 6 → (∀ c ∈ frac, isDig c = true) →
      1 ≤ val4 y1 y2 y3 y4 →
      1 ≤ val2 m1 m2 → val2 m1 m2 ≤ 12 →
      1 ≤ val2 d1 d2 → val2 d1 d2 ≤ daysInMonth (val4 y1 y2 y3 y4) (val2 m1 m2) →
      val2 h1 h2 ≤ 23 → val2 i1 i2 ≤ 59 → val2 s1 s2 ≤ 59 →
      pyExtractTs (String.mk (pre ++ '[' :: y1 :: y2 :: y3 :: y4 :: '-' :: m1 :: m2 ::
          '-' :: d1 :: d2 :: 'T' :: h1 :: h2 :: ':' :: i1 :: i2 :: ':' :: s1 :: s2 ::
          '.' :: (frac ++ 'Z' :: ']' :: rest))) =
        some ⟨val4 y1 y2 y3 y4, val2 m1 m2, val2 d1 d2, val2 h1 h2, val2 i1 i2,
          val2 s1 s2, digitsVal frac * 10 ^ (6 - frac.length)⟩) ∧
    (∀ (pre : List Char) (y1 y2 y3 y4 m1 m2 d1 d2 h1 h2 i1 i2 s1 s2 : Char)
      (rest : List Char),
      '[' ∉ pre →
      (isDig y1 = true ∧ isDig y2 = true ∧ isDig y3 = true ∧ isDig y4 = true ∧
       isDig m1 = true ∧ isDig m2 = true ∧ isDig d1 = true ∧ isDig d2 = true ∧
       isDig h1 = true ∧ isDig h2 = true ∧ isDig i1 = true ∧ isDig i2 = true ∧
       isDig s1 = true ∧ isDig s2 = true) →
      pyExtractTs (String.mk (pre ++ '[' :: y1 :: y2 :: y3 :: y4 :: '-' :: m1 :: m2 ::
          '-' :: d1 :: d2 :: 'T' :: h1 :: h2 :: ':' :: i1 :: i2 :: ':' :: s1 :: s2 ::
          'Z' :: ']' :: rest)) = none) ∧
    (∀ line : String, tsSearch line.data = none → pyExtractTs line = none) := by
  refine ⟨?_, ?_, ?_⟩
  · intro pre y1 y2 y3 y4 m1 m2 d1 d2 h1 h2 i1 i2 s1 s2 frac rest hpre hdig
      hfrac hlen hfd hy hmo1 hmo2 hda1 hda2 hhr hir hsr
    obtain ⟨hy1, hy2, hy3, hy4, hm1, hm2, hd1, hd2, hh1, hh2, hi1, hi2, hs1, hs2⟩ := hdig
    unfold pyExtractTs
    show (match tsSearch (pre ++ '[' :: y1 :: y2 :: y3 :: y4 :: '-' :: m1 :: m2 ::
        '-' :: d1 :: d2 :: 'T' :: h1 :: h2 :: ':' :: i1 :: i2 :: ':' :: s1 :: s2 ::
        '.' :: (frac ++ 'Z' :: ']' :: rest)) with
      | none => none
      | some tok => pyStrptimeTs tok) = _
    rw [tsSearch_append_no_bracket pre _ hpre, tsSearch,
      matchTsAt_with_frac y1 y2 y3 y4 m1 m2 d1 d2 h1 h2 i1 i2 s1 s2 frac rest
        hy1 hy2 hy3 hy4 hm1 hm2 hd1 hd2 hh1 hh2 hi1 hi2 hs1 hs2 hfrac hfd]
    dsimp only
    rw [pyStrptimeTs_with_frac y1 y2 y3 y4 m1 m2 d1 d2 h1 h2 i1 i2 s1 s2 frac
      hy1 hy2 hy3 hy4 hm1 hm2 hd1 hd2 hh1 hh2 hi1 hi2 hs1 hs2 hfrac hlen hfd]
    unfold mkValidDatetime
    rw [if_pos]
    refine ⟨hy, ?_, hmo1, hmo2, hda1, hda2, hhr, hir, hsr, ?_⟩
    · have b1 := dval_le_of_isDig hy1
      have b2 := dval_le_of_isDig hy2
      have b3 := dval_le_of_isDig hy3
      have b4 := dval_le_of_isDig hy4
      unfold val4
      omega
    · exact usec_lt frac hfd hlen
  · intro pre y1 y2 y3 y4 m1 m2 d1 d2 h1 h2 i1 i2 s1 s2 rest hpre hdig
    obtain ⟨hy1, hy2, hy3, hy4, hm1, hm2, hd1, hd2, hh1, hh2, hi1, hi2, hs1, hs2⟩ := hdig
    unfold pyExtractTs
    show (match tsSearch (pre ++ '[' :: y1 :: y2 :: y3 :: y4 :: '-' :: m1 :: m2 ::
        '-' :: d1 :: d2 :: 'T' :: h1 :: h2 :: ':' :: i1 :: i2 :: ':' :: s1 :: s2 ::
        'Z' :: ']' :: rest) with
      | none => none
      | some tok => pyStrptimeTs tok) = _
    rw [tsSearch_append_no_bracket pre _ hpre, tsSearch,
      matchTsAt_no_frac y1 y2 y3 y4 m1 m2 d1 d2 h1 h2 i1 i2 s1 s2 rest
        hy1 hy2 hy3 hy4 hm1 hm2 hd1 hd2 hh1 hh2 hi1 hi2 hs1 hs2]
    dsimp only
    rw [pyStrptimeTs_no_frac y1 y2 y3 y4 m1 m2 d1 d2 h1 h2 i1 i2 s1 s2
      hy1 hy2 hy3 hy4 hm1 hm2 hd1 hd2 hh1 hh2 hi1 hi2 hs1 hs2]
  · intro line h
    unfold pyExtractTs
    rw [h]

/-- C3 witness: the amended theorem applied to a concrete line with fraction,
one without, and one with no bracketed token at all. -/
theorem c3_extract_ts_requires_fraction_witness :
    pyExtractTs (String.mk ("ip - ".data ++ '[' :: '2' :: '0' :: '2' :: '4' :: '-' ::
        '0' :: '6' :: '-' :: '1' :: '5' :: 'T' :: '0' :: '7' :: ':' :: '0' :: '8' ::
        ':' :: '0' :: '9' :: '.' :: (['5'] ++ 'Z' :: ']' :: " x".data))) =
      some ⟨2024, 6, 15, 7, 8, 9, 500000⟩ ∧
    pyExtractTs (String.mk ("ip - ".data ++ '[' :: '2' :: '0' :: '2' :: '4' :: '-' ::
        '0' :: '6' :: '-' :: '1' :: '5' :: 'T' :: '0' :: '7' :: ':' :: '0' :: '8' ::
        ':' :: '0' :: '9' :: 'Z' :: ']' :: " x".data)) = none ∧
    pyExtractTs "no timestamp here" = none := by
  refine ⟨?_, ?_, ?_⟩
  · have h := c3_extract_ts_requires_fraction.1 "ip - ".data '2' '0' '2' '4' '0' '6'
      '1' '5' '0' '7' '0' '8' '0' '9' ['5'] " x".data (by decide) (by decide)
      (by decide) (by decide) (by decide) (by decide) (by decide) (by decide)
      (by decide) (by decide) (by decide) (by decide) (by decide)
    simpa using h
  · exact c3_extract_ts_requires_fraction.2.1 "ip - ".data '2' '0' '2' '4' '0' '6'
      '1' '5' '0' '7' '0' '8' '0' '9' " x".data (by decide) (by decide)
  · exact c3_extract_ts_requires_fraction.2.2 "no timestamp here" (by rfl)

/-- C1 witness: the report written for a concrete row list has the
three-column header and three-cell rows. -/
theorem c1_report_has_three_columns_witness :
    (write_to_csv [("r", none, none)]).head? = some csvHeaderRow ∧
    csvHeaderRow.length = 3 ∧
    ((write_to_csv [("r", none, none)]).all fun r => r.length == 3) = true := by
  have h := c1_report_has_three_columns [("r", none, none)]
  exact ⟨h.1, h.2.2.1, h.2.2.2.2⟩

/-- C8 witness: the enumeration theorem applied to a concrete directory. -/
theorem c8_enumeration_and_order_witness :
    (iter_log_files [⟨"b.log", true, 1⟩, ⟨"a.gz", true, 9⟩]).Perm
      ([⟨"b.log", true, 1⟩, ⟨"a.gz", true, 9⟩].filter
        (fun e => e.isFile && logNamePred e.name)) ∧
    (iter_log_files [⟨"b.log", true, 1⟩, ⟨"a.gz", true, 9⟩]).Pairwise
      (fun a b => b.mtime ≤ a.mtime) := by
  have h := c8_enumeration_and_order [⟨"b.log", true, 1⟩, ⟨"a.gz", true, 9⟩]
  exact ⟨h.1, h.2.2⟩
